import Mathlib

/-!
Verification of the tx-composer core: a shallow embedding in Lean 4 of the
composition / validation / diagnosis pipeline.

Embedded modules (translated from the TypeScript source):
  * `src/simulation/flow-tracker.ts` — balance extraction from simulated
    write-sets, vault extraction, delta/diff computation, expectations;
  * `src/simulation/errors.ts`       — the ordered VM-status diagnosis table;
  * `src/simulation/plan.ts`         — the sequential dry-run engine;
  * `src/dynamic/validate.ts`        — the ABI validator;
  * `src/dynamic/composer.ts`        — argument resolution and `build()`.

Modelling conventions:
  * JS `Map<string, V>` values are modelled extensionally as functions
    `String → Option V` (`Map.get` = application, `Map.set` = pointwise
    update); JS `bigint` is `Int`; JS numbers that only ever hold integral
    values are `Nat`/`Int`, and the two floating-point-valued quantities the
    engine merely carries around (`gasCostApt`, `durationMs`) are `Rat`.
  * Network-bound collaborators (address derivation, balance queries, the
    per-step simulator, ABI fetch, struct-ability fetch, string formatting of
    amounts and reports) are parameters of the embedding, exactly at the
    points where the source calls out to them.
  * JS regular expressions in the diagnosis table are alternations of literal
    substrings (plus one `A.*B` sequencing pattern); they are embedded as the
    corresponding decidable substring tests.
-/

namespace TxComposer

/-! ## String primitives (JS `includes` / `toLowerCase` / `endsWith`) -/

/-- Boolean list prefix test (helper for the substring tests below). -/
def isPrefixL : List Char → List Char → Bool
  | [], _ => true
  | _ :: _, [] => false
  | p :: ps, c :: cs => p == c && isPrefixL ps cs

/-- Does `pat` occur as a contiguous substring of `hay`? -/
def containsSub (pat : List Char) : List Char → Bool
  | [] => isPrefixL pat []
  | c :: t => isPrefixL pat (c :: t) || containsSub pat t

/-- JS `hay.includes(pat)`. -/
def strIncludes (hay pat : String) : Bool :=
  containsSub pat.data hay.data

/-- JS `s.toLowerCase()` (ASCII, which is all the source compares), mapped
over the character list so that it evaluates by kernel reduction. -/
def toLowerStr (s : String) : String :=
  ⟨s.data.map Char.toLower⟩

/-- Case-insensitive substring test: regex `/pat/i` for a literal `pat`
(`pat` is supplied already lowercased). -/
def containsCI (hay pat : String) : Bool :=
  strIncludes (toLowerStr hay) pat

/-- Does `a` occur and, somewhere at or after its end, `b`?  This is the
matching semantics of the regex `A.*B` on a one-line subject. -/
def seqContains (a b : List Char) : List Char → Bool
  | [] => isPrefixL a [] && containsSub b ([].drop a.length)
  | c :: t =>
    (isPrefixL a (c :: t) && containsSub b ((c :: t).drop a.length))
      || seqContains a b t

/-- Regex `/A.*B/i` for literal fragments `a`, `b` (supplied lowercased). -/
def seqCI (hay a b : String) : Bool :=
  seqContains a.data b.data (toLowerStr hay).data

/-- JS `s.endsWith(suf)`. -/
def strEndsWith (s suf : String) : Bool :=
  isPrefixL suf.data.reverse s.data.reverse

/-! ## Extensional JS `Map` model -/

/-- A JS `Map<string, V>`, viewed extensionally (`get` = application). -/
def JMap (V : Type) : Type := String → Option V

instance (V : Type) : Inhabited (JMap V) := ⟨fun _ => none⟩

/-- The empty map: `new Map()`. -/
def jempty {V : Type} : JMap V := fun _ => none

/-- `m.set(k, v)` (as the map it leaves behind). -/
def jset {V : Type} (m : JMap V) (k : String) (v : V) : JMap V :=
  fun k' => if k' == k then some v else m k'

/-- `new Map(cur)` followed by `for ([k, v] of aft) merged.set(k, v)`:
entries of `aft` win, all other keys keep their `cur` value. -/
def jmerge {V : Type} (cur aft : JMap V) : JMap V :=
  fun k => match aft k with
    | some v => some v
    | none => cur k

/-! ## Decimal rendering of indices (`Nat.repr` facts)

The validator keys its consumed-reference set by the string
`step + ":" + returnIndex` and embeds indices in warning messages, so the
proofs need that the decimal rendering of a `Nat` consists of digits and is
injective.  `natChars n` is the list of characters `Nat.repr n` produces. -/

/-- The decimal digit characters of `n`, most significant first. -/
def natChars (n : Nat) : List Char :=
  if _h : n < 10 then [Nat.digitChar n]
  else natChars (n / 10) ++ [Nat.digitChar (n % 10)]
  decreasing_by exact Nat.div_lt_self (by omega) (by omega)

/-! ## Data model: tokens and raw simulation write-set changes

`Change` models one entry of `raw.changes` of a `UserTransactionResponse`,
restricted to the fields the embedded functions read.  Optional fields model
JS `undefined`; balance-like JSON decimal strings are modelled by the `Int`
they denote (the `BigInt(...)` conversions of the source are absorbed). -/

structure TokenConfig where
  symbol : String
  metadata : String
  decimals : Nat
deriving DecidableEq, Repr

/-- `collaterals.data` entry: `{key, value}` (`value` may be absent,
`BigInt(entry.value ?? "0")`). -/
structure KVEntry where
  key : String
  value : Option Int
deriving DecidableEq, Repr

/-- `liabilities.data` entry: `{key, value: {principal}}`
(`BigInt(entry.value?.principal ?? "0")`). -/
structure LiabEntry where
  key : String
  principal : Option Int
deriving DecidableEq, Repr

/-- The `data.data` payload of a `write_resource` change. -/
structure InnerData where
  balance : Option Int
  collaterals : Option (List KVEntry)
  liabilities : Option (List LiabEntry)
deriving DecidableEq, Repr

/-- The `data` field of a `write_resource` change: a resource type string and
its payload (`data.data`, absent when the JSON lacked it). -/
structure ChangeData where
  type : String
  data : Option InnerData
deriving DecidableEq, Repr

/-- One raw state change. -/
structure Change where
  type : String
  address : Option String
  resource : Option String
  data : Option ChangeData
deriving DecidableEq, Repr

/-! ## flow-tracker.ts -/

/-- External collaborators of the flow tracker, passed in at the exact points
the source calls out of the repository:
  * `derive owner metadata` models
    `createObjectAddress(AccountAddress.from(owner), AccountAddress.from(metadata).toUint8Array()).toString()`
    — the deterministic primary-fungible-store object address;
  * `fmt v decimals` models `formatAmount(v, decimals)`
    (floating-point string formatting in `core/balance.ts`). -/
structure Ext where
  derive : String → String → String
  fmt : Int → Nat → String

/-- The `expectedStores` map of `extractBalancesFromSimulation`:
lowercased derived store address → canonical metadata of the tracked token. -/
def expectedStoresMap (E : Ext) (owner : String) (tokens : List TokenConfig) :
    JMap String :=
  tokens.foldl
    (fun m token => jset m (toLowerStr (E.derive owner token.metadata)) token.metadata)
    jempty

/-- One iteration of the `for (const change of changes)` loop of
`extractBalancesFromSimulation` (each `continue` is a branch that returns the
accumulator unchanged). -/
def extractBalancesStep (expectedStores : JMap String) (result : JMap Int)
    (change : Change) : JMap Int :=
  if change.type != "write_resource" then result
  else match change.data with
    | none => result
    | some data =>
      if !(strIncludes data.type "FungibleStore") then result
      else match change.address with
        | none => result
        | some addr =>
          let storeAddress := toLowerStr addr
          if storeAddress == "" then result
          else match expectedStores storeAddress with
            | none => result
            | some canonicalMeta =>
              match data.data with
              | none => result
              | some inner =>
                match inner.balance with
                | none => result
                | some bal => jset result canonicalMeta bal

/-- `extractBalancesFromSimulation(raw, tokens, owner)`
(`src/simulation/flow-tracker.ts`): scan the write-set for `FungibleStore`
writes whose address equals a tracked token's derived primary-store address. -/
def extractBalancesFromSimulation (E : Ext) (raw : List Change)
    (tokens : List TokenConfig) (owner : String) : JMap Int :=
  let expectedStores := expectedStoresMap E owner tokens
  raw.foldl (extractBalancesStep expectedStores) jempty

/-- `VaultSnapshot` (`src/simulation/types.ts`).  The source field `exists`
is spelled `exists_` here because `exists` is unusable as a Lean field name. -/
structure VaultSnapshot where
  market : String
  collateral : Int
  debtPrincipal : Int
  exists_ : Bool
deriving DecidableEq, Repr

/-- `extractVaultFromSimulation(raw, protocolAddress)`
(`src/simulation/flow-tracker.ts`): first matching change wins; a deletion of
a `Vault` resource reports a dead position, a `lending::Vault` write reports
the summed collateral / liability-principal legs.  (`protocolAddress` is
never read by the body — exactly as in the source.) -/
def extractVaultFromSimulation : List Change → String → Option VaultSnapshot
  | [], _ => none
  | c :: rest, protocolAddress =>
    if c.type == "delete_resource"
        && (match c.resource with
            | some r => strIncludes r "Vault"
            | none => false) then
      some ⟨"", 0, 0, false⟩
    else if c.type != "write_resource" then
      extractVaultFromSimulation rest protocolAddress
    else match c.data with
      | none => extractVaultFromSimulation rest protocolAddress
      | some data =>
        if !(strIncludes data.type "lending::Vault") then
          extractVaultFromSimulation rest protocolAddress
        else match data.data with
          | none => extractVaultFromSimulation rest protocolAddress
          | some vaultData =>
            let collateral :=
              (vaultData.collaterals.getD []).foldl
                (fun acc e => acc + e.value.getD 0) 0
            let debtPrincipal :=
              (vaultData.liabilities.getD []).foldl
                (fun acc e => acc + e.principal.getD 0) 0
            some ⟨"", collateral, debtPrincipal, true⟩

/-- `BalanceDelta` (`src/simulation/types.ts`). -/
structure BalanceDelta where
  token : TokenConfig
  before : Int
  after : Int
  delta : Int
  deltaFormatted : String
deriving DecidableEq, Repr

/-- `computeDeltas(before, after, tokens)` (`src/simulation/flow-tracker.ts`):
`before.get(m) ?? 0n`, `after.get(m) ?? b` — a token absent from the
simulation is carried forward unchanged. -/
def computeDeltas (E : Ext) (before after : JMap Int) (tokens : List TokenConfig) :
    List BalanceDelta :=
  tokens.map (fun token =>
    let b := (before token.metadata).getD 0
    let a := (after token.metadata).getD b
    let delta := a - b
    let sign := if delta ≥ 0 then "+" else ""
    { token := token, before := b, after := a, delta := delta
      deltaFormatted := sign ++ E.fmt delta token.decimals })

/-- `BalanceSnapshot` (`src/simulation/types.ts`, balances map only). -/
structure BalanceSnapshot where
  owner : String
  balances : JMap Int

/-- `BalanceDiff` (`src/simulation/types.ts`). -/
structure BalanceDiff where
  owner : String
  deltas : List BalanceDelta
  vault : Option (Option VaultSnapshot × Option VaultSnapshot)

/-- `computeDiff(before, afterBalances, tokens, vaultBefore?, vaultAfter?)`.
The two trailing source parameters distinguish "omitted" from "passed null";
`vaultArgs = none` models both omitted, `vaultArgs = some (b, a)` models the
call that passes both. -/
def computeDiff (E : Ext) (before : BalanceSnapshot) (afterBalances : JMap Int)
    (tokens : List TokenConfig)
    (vaultArgs : Option (Option VaultSnapshot × Option VaultSnapshot)) :
    BalanceDiff :=
  { owner := before.owner
    deltas := computeDeltas E before.balances afterBalances tokens
    vault := vaultArgs }

/-! ## Expectations (`src/simulation/types.ts` / `flow-tracker.ts`) -/

inductive ExpectationType where
  | balance_increase
  | balance_decrease
  | vault_debt_decrease
  | vault_collateral_decrease
  | success
deriving DecidableEq, Repr

structure StepExpectation where
  type : ExpectationType
  token : Option String
  description : String
deriving DecidableEq, Repr

structure ExpectationResult where
  passed : Bool
  description : String
  actual : String
deriving DecidableEq, Repr

/-- `validateExpectations(expectations, deltas, vaultBefore?, vaultAfter?)`
(`src/simulation/flow-tracker.ts`).  When `exp.token` is absent the JS
`find` compares every metadata against `undefined` and finds nothing. -/
def validateExpectations (expectations : List StepExpectation)
    (deltas : List BalanceDelta)
    (vaultBefore vaultAfter : Option VaultSnapshot) : List ExpectationResult :=
  expectations.map (fun exp =>
    match exp.type with
    | .balance_increase =>
      let d : Option BalanceDelta := match exp.token with
        | some tk => deltas.find? (fun d => toLowerStr d.token.metadata == toLowerStr tk)
        | none => none
      match d with
      | none => { passed := false, description := exp.description, actual := "token not tracked" }
      | some d =>
        { passed := d.delta > 0
          description := exp.description
          actual := d.deltaFormatted ++ " " ++ d.token.symbol }
    | .balance_decrease =>
      let d : Option BalanceDelta := match exp.token with
        | some tk => deltas.find? (fun d => toLowerStr d.token.metadata == toLowerStr tk)
        | none => none
      match d with
      | none => { passed := false, description := exp.description, actual := "token not tracked" }
      | some d =>
        { passed := d.delta < 0
          description := exp.description
          actual := d.deltaFormatted ++ " " ++ d.token.symbol }
    | .vault_debt_decrease =>
      match vaultBefore, vaultAfter with
      | some vb, some va =>
        { passed := va.debtPrincipal < vb.debtPrincipal
          description := exp.description
          actual := "debt " ++ Int.repr vb.debtPrincipal ++ " → " ++ Int.repr va.debtPrincipal }
      | _, _ => { passed := false, description := exp.description, actual := "vault not tracked" }
    | .vault_collateral_decrease =>
      match vaultBefore, vaultAfter with
      | some vb, some va =>
        { passed := va.collateral < vb.collateral
          description := exp.description
          actual := "collateral " ++ Int.repr vb.collateral ++ " → " ++ Int.repr va.collateral }
      | _, _ => { passed := false, description := exp.description, actual := "vault not tracked" }
    | .success =>
      { passed := true, description := exp.description, actual := "checked at step level" })

/-! ## errors.ts — ordered VM-status diagnosis -/

inductive ErrorSeverity where
  | error
  | warning
deriving DecidableEq, Repr

structure DiagnosedError where
  severity : ErrorSeverity
  code : String
  title : String
  detail : String
  suggestion : String
  stepLabel : Option String
deriving DecidableEq, Repr

/-- One entry of `ERROR_PATTERNS`; `test` is the embedded regex. -/
structure ErrorPattern where
  test : String → Bool
  code : String
  title : String
  detail : String
  suggestion : String
  severity : ErrorSeverity

/-- `ERROR_PATTERNS` (`src/simulation/errors.ts`), in source order.  Each
regex is an alternation of literal substrings; `/REPAY.*EXCEED/i` is the
sequencing pattern `seqCI`. -/
def ERROR_PATTERNS : List ErrorPattern := [
  { test := fun s => strIncludes s "INSUFFICIENT_BALANCE" || strIncludes s "65540"
    code := "INSUFFICIENT_BALANCE"
    title := "Insufficient token balance"
    detail := "The account does not hold enough of the requested token for this operation."
    suggestion := "Verify the wallet holds enough tokens. Check that prior steps produced sufficient output."
    severity := .error },
  { test := fun s => containsCI s "arithmetic_error"
    code := "ARITHMETIC_OVERFLOW"
    title := "Arithmetic overflow in contract"
    detail := "A math operation overflowed. Common when repay amount exceeds debt or swap amounts exceed pool liquidity."
    suggestion := "Check that repay amount <= outstanding debt. Verify swap amounts against pool liquidity."
    severity := .error },
  { test := fun s => containsCI s "out_of_gas"
    code := "OUT_OF_GAS"
    title := "Transaction ran out of gas"
    detail := "The max gas limit was exceeded. Composed transactions with many steps use more gas."
    suggestion := "Increase max_gas_amount or reduce the number of steps."
    severity := .error },
  { test := fun s => containsCI s "sequence_number"
    code := "SEQUENCE_NUMBER_ERROR"
    title := "Sequence number mismatch"
    detail := "The transaction sequence number doesn\x27t match the account state. Usually means concurrent transactions."
    suggestion := "Wait for any pending transactions to finalize before retrying."
    severity := .error },
  { test := fun s => seqCI s "repay" "exceed" || containsCI s "repay_amount_exceeds"
    code := "REPAY_EXCEEDS_DEBT"
    title := "Repay amount exceeds outstanding debt"
    detail := "Attempting to repay more than the current debt amount. Use repay_all to handle exact amounts."
    suggestion := "Use repay_all_fa instead, or reduce the repay amount to match the actual debt."
    severity := .error },
  { test := fun s => containsCI s "insufficient_shares" || containsCI s "insufficient_shares"
    code := "INSUFFICIENT_SHARES"
    title := "Insufficient collateral shares"
    detail := "Attempting to withdraw more collateral than is deposited."
    suggestion := "Reduce the withdrawal amount or use withdraw_all to withdraw everything."
    severity := .error },
  { test := fun s => containsCI s "sqrt_price_limit" || containsCI s "sqrt_price"
    code := "PRICE_LIMIT_ERROR"
    title := "Swap price limit exceeded"
    detail := "The swap would move the price beyond the specified limit."
    suggestion := "Increase slippage tolerance or reduce swap amount."
    severity := .error },
  { test := fun s => containsCI s "lending"
    code := "LENDING_ERROR"
    title := "Lending protocol error"
    detail := "The lending protocol rejected the operation."
    suggestion := "Check: repay amount <= debt, withdrawal won\x27t breach health factor, position exists."
    severity := .error },
  { test := fun s => containsCI s "pool_v3" || containsCI s "pool_v2"
    code := "DEX_POOL_ERROR"
    title := "DEX pool operation failed"
    detail := "The DEX pool rejected the swap operation."
    suggestion := "Check slippage tolerance, pool liquidity, and that the pool address is correct."
    severity := .error },
  { test := fun s => containsCI s "aborted"
    code := "MOVE_ABORT"
    title := "Move module aborted execution"
    detail := "A Move smart contract called abort(). The abort code indicates the specific failure."
    suggestion := "Check the abort code against the protocol\x27s documentation or source code."
    severity := .error }
]

/-- The diagnosis built from a matched rule. -/
def diagnosisOf (p : ErrorPattern) (stepLabel : Option String) : DiagnosedError :=
  { severity := p.severity, code := p.code, title := p.title
    detail := p.detail, suggestion := p.suggestion, stepLabel := stepLabel }

/-- The generic fallback diagnosis. -/
def unknownDiagnosis (vmStatus : String) (stepLabel : Option String) : DiagnosedError :=
  { severity := .error, code := "UNKNOWN_ERROR", title := "Transaction failed"
    detail := "VM status: " ++ vmStatus
    suggestion := "Inspect the raw vm_status for details."
    stepLabel := stepLabel }

/-- `diagnoseVmStatus(vmStatus, stepLabel?)` (`src/simulation/errors.ts`).
The `for ... break` loop collecting at most one matching rule is the
first-match search `List.find?`. -/
def diagnoseVmStatus (vmStatus : String) (stepLabel : Option String := none) :
    List DiagnosedError :=
  if vmStatus == "" || vmStatus == "Executed successfully" then []
  else
    let errors : List DiagnosedError :=
      match ERROR_PATTERNS.find? (fun p => p.test vmStatus) with
      | some p => [diagnosisOf p stepLabel]
      | none => []
    if errors.length == 0 && !(vmStatus == "Executed successfully") then
      errors ++ [unknownDiagnosis vmStatus stepLabel]
    else errors

/-! ## plan.ts — the sequential dry-run engine

`buildAndSimulate` (network) is the parameter `simulate` mapping a step's
payload (kept opaque as a string) to the parsed simulation result; the
initial `captureSnapshot` balance queries are the parameter `initBal`;
`formatFlowReport` (string formatting of the final report) is the parameter
`fmtReport`. -/

/-- `ParsedEvent` (`src/types.ts`), minus the raw payload. -/
structure ParsedEvent where
  type : String
  shortType : String
  amount : Option Int
deriving DecidableEq, Repr

/-- The fields of `parseSimulationResult`'s output that `dryRun` consumes. -/
structure SimResultM where
  success : Bool
  vmStatus : String
  gasUsed : Nat
  gasCostApt : Rat
  events : List ParsedEvent
  raw : List Change

/-- `PlanStep` (`src/simulation/types.ts`); the entry-function payload is
opaque to this core and kept as a string token. -/
structure PlanStep where
  label : String
  description : String
  payload : String
  expectations : Option (List StepExpectation)

/-- `SimulationPlan` (`src/simulation/types.ts`). -/
structure SimulationPlan where
  name : String
  description : String
  owner : String
  tokens : List TokenConfig
  steps : List PlanStep
  vaultMarket : Option String
  vaultProtocol : Option String

/-- `StepResult` (`src/simulation/types.ts`).  Wall-clock `durationMs` is
elided (set to 0). -/
structure StepResultM where
  label : String
  description : String
  success : Bool
  vmStatus : String
  gasUsed : Nat
  gasCostApt : Rat
  events : List ParsedEvent
  balancesAfter : JMap Int
  vaultAfter : Option VaultSnapshot
  deltas : List BalanceDelta
  expectationResults : List ExpectationResult
  durationMs : Rat

/-- The per-run context of `dryRun`'s step loop (the plan fields the loop
reads, plus the external collaborators). -/
structure DryRunCtx where
  E : Ext
  simulate : String → SimResultM
  owner : String
  tokens : List TokenConfig
  vaultProtocol : Option String

/-- Result of running the step loop: the carried-forward balances, the
carried-forward vault, the `allSuccess` flag and the step results. -/
structure RunOut where
  current : JMap Int
  vault : Option VaultSnapshot
  allSuccess : Bool
  results : List StepResultM

/-- The body of `dryRun`'s `for (const step of plan.steps)` loop
(`src/simulation/plan.ts`), one step: simulate, extract, merge (carry
forward), extract vault, compute deltas, validate expectations, record the
step result and advance the carried state. -/
def dryRunStep (ctx : DryRunCtx) (currentBalances : JMap Int)
    (currentVault : Option VaultSnapshot) (step : PlanStep) :
    JMap Int × Option VaultSnapshot × StepResultM :=
  let simulation := ctx.simulate step.payload
  let afterBalances :=
    extractBalancesFromSimulation ctx.E simulation.raw ctx.tokens ctx.owner
  let mergedBalances := jmerge currentBalances afterBalances
  let vaultAfter : Option VaultSnapshot :=
    match ctx.vaultProtocol with
    | some p => extractVaultFromSimulation simulation.raw p
    | none => none
  let deltas := computeDeltas ctx.E currentBalances mergedBalances ctx.tokens
  let expectationResults :=
    match step.expectations with
    | some es => validateExpectations es deltas currentVault vaultAfter
    | none => []
  let result : StepResultM :=
    { label := step.label
      description := step.description
      success := simulation.success
      vmStatus := simulation.vmStatus
      gasUsed := simulation.gasUsed
      gasCostApt := simulation.gasCostApt
      events := simulation.events
      balancesAfter := mergedBalances
      vaultAfter := vaultAfter
      deltas := deltas
      expectationResults := expectationResults
      durationMs := 0 }
  let newVault := match vaultAfter with
    | some v => some v
    | none => currentVault
  (mergedBalances, newVault, result)

/-- The whole step loop, threading the carried-forward state and the
`allSuccess` flag exactly as the source does. -/
def runSteps (ctx : DryRunCtx) (currentBalances : JMap Int)
    (currentVault : Option VaultSnapshot) (allSuccess : Bool) :
    List PlanStep → RunOut
  | [] => ⟨currentBalances, currentVault, allSuccess, []⟩
  | step :: rest =>
    let (merged, newVault, result) := dryRunStep ctx currentBalances currentVault step
    let nextFlag := allSuccess && result.success
    let out := runSteps ctx merged newVault nextFlag rest
    ⟨out.current, out.vault, out.allSuccess, result :: out.results⟩

/-- `FlowReport` (`src/simulation/types.ts`), with `plan` kept by reference. -/
structure FlowReportM where
  plan : SimulationPlan
  success : Bool
  totalGasUsed : Nat
  totalGasCostApt : Rat
  initialSnapshot : BalanceSnapshot
  stepResults : List StepResultM
  overallDiff : BalanceDiff
  errors : List DiagnosedError
  warnings : List DiagnosedError
  summary : String

/-- The `captureSnapshot` balance map: one `getFABalance` (modelled by
`initBal`) per tracked token. -/
def captureBalances (initBal : String → Int) (tokens : List TokenConfig) :
    JMap Int :=
  tokens.foldl (fun m t => jset m t.metadata (initBal t.metadata)) jempty

/-- The warning record `dryRun` builds from a failed expectation. -/
def expectationWarning (stepLabel : String) (e : ExpectationResult) :
    DiagnosedError :=
  { severity := .warning
    code := "EXPECTATION_FAILED"
    title := "Expectation failed: " ++ e.description
    detail := "Actual: " ++ e.actual
    suggestion := "Review the step inputs and expected outcomes."
    stepLabel := some stepLabel }

/-- `dryRun(client, plan)` (`src/simulation/plan.ts`): initial snapshot, the
step loop, overall diff, error/warning collection, report assembly. -/
def dryRun (E : Ext) (simulate : String → SimResultM) (initBal : String → Int)
    (fmtReport : FlowReportM → String) (plan : SimulationPlan) : FlowReportM :=
  let initialSnapshot : BalanceSnapshot :=
    ⟨plan.owner, captureBalances initBal plan.tokens⟩
  let ctx : DryRunCtx :=
    ⟨E, simulate, plan.owner, plan.tokens, plan.vaultProtocol⟩
  let out := runSteps ctx initialSnapshot.balances none true plan.steps
  let overallDiff :=
    computeDiff E initialSnapshot out.current plan.tokens (some (none, out.vault))
  let errors :=
    (out.results.filter (fun s => !s.success)).flatMap
      (fun s => diagnoseVmStatus s.vmStatus (some s.label))
  let warnings :=
    out.results.flatMap (fun s =>
      (s.expectationResults.filter (fun e => !e.passed)).map
        (expectationWarning s.label))
  let report : FlowReportM :=
    { plan := plan
      success := out.allSuccess
      totalGasUsed := (out.results.map (fun s => s.gasUsed)).sum
      totalGasCostApt := (out.results.map (fun s => s.gasCostApt)).sum
      initialSnapshot := initialSnapshot
      stepResults := out.results
      overallDiff := overallDiff
      errors := errors
      warnings := warnings
      summary := "" }
  { report with summary := fmtReport report }

/-! ## dynamic/types.ts — the step-argument system -/

inductive RefMode where
  | move
  | copy
  | borrow
  | borrow_mut
deriving DecidableEq, Repr

/-- Literal payloads (`string | number | bigint | boolean`); integral JS
numbers and bigints are both carried as `Int`. -/
inductive Lit where
  | str (v : String)
  | num (v : Int)
  | big (v : Int)
  | bool (v : Bool)
deriving DecidableEq, Repr

/-- `StepArg` (`src/dynamic/types.ts`). -/
inductive StepArg where
  | signer
  | literal (value : Lit)
  | ref (step : String) (returnIndex : Nat) (mode : RefMode)
deriving DecidableEq, Repr

/-- `arg.kind` as the string the validator prints. -/
def argKindStr : StepArg → String
  | .signer => "signer"
  | .literal _ => "literal"
  | .ref _ _ _ => "ref"

/-- `ComposerStep` (`src/dynamic/types.ts`). -/
structure ComposerStep where
  function : String
  typeArguments : Option (List String)
  args : List StepArg
deriving DecidableEq, Repr

/-! ## dynamic/validate.ts — the ABI validator

The on-chain collaborators are parameters:
  * `abiLookup addr module fn` models the memoized `fetchFunction`
    (`none` both when the module is missing and when the fetch throws);
  * `dropOracle addr module struct` models `checkDropAbility`
    (`none` = module or struct not found, `some b` = the struct's abilities
    contain `drop` iff `b`). -/

/-- The slice of a `MoveFunction` ABI the validator reads
(`generic_type_params` is kept only by its length). -/
structure MoveFunction where
  params : List String
  ret : List String
  genericTypeParamCount : Nat
deriving DecidableEq, Repr

abbrev AbiLookup := String → String → String → Option MoveFunction
abbrev DropOracle := String → String → String → Option Bool

structure ValidationWarning where
  stepLabel : String
  code : String
  message : String
deriving DecidableEq, Repr

/-- `StepValidation` (`src/dynamic/validate.ts`), minus the raw ABI record. -/
structure StepValidation where
  label : String
  function : String
  signerCount : Nat
  params : List String
  returnTypes : List String
  nonDroppableReturns : List Nat
deriving DecidableEq, Repr

/-- JS `s.split(sep)` for a non-empty separator, over character lists
(`acc` holds the current fragment reversed; `fuel ≥ hay.length` keeps the
recursion structural, each step consumes at least one character). -/
def splitAuxL (sep : List Char) : Nat → List Char → List Char → List (List Char)
  | _, [], acc => [acc.reverse]
  | 0, hay, acc => [acc.reverse ++ hay]
  | fuel + 1, c :: t, acc =>
    if isPrefixL sep (c :: t) then
      acc.reverse :: splitAuxL sep fuel (t.drop (sep.length - 1)) []
    else
      splitAuxL sep fuel t (c :: acc)

/-- JS `s.split(sep)` (for the non-empty separators the source uses). -/
def jsSplit (s sep : String) : List String :=
  (splitAuxL sep.data s.data.length s.data []).map (fun l => ⟨l⟩)

/-- `parseFunctionId`: split on `::`, at least three parts. -/
def parseFunctionId (functionId : String) : Option (String × String × String) :=
  let parts := jsSplit functionId "::"
  if parts.length < 3 then none
  else some (parts.getD 0 "", parts.getD 1 "", parts.getD 2 "")

/-- `countSignerParams`: leading run of `&signer` / `signer` parameters. -/
def countSignerParams : List String → Nat
  | [] => 0
  | p :: ps => if p == "&signer" || p == "signer" then countSignerParams ps + 1 else 0

/-- `isStructType`. -/
def isStructType (typeStr : String) : Bool :=
  strIncludes typeStr "::"

/-- `parseStructId`: strip type arguments, split on `::`. -/
def parseStructId (typeStr : String) : Option (String × String × String) :=
  let clean := (jsSplit typeStr "<").getD 0 ""
  let parts := jsSplit clean "::"
  if parts.length < 3 then none
  else some (parts.getD 0 "", parts.getD 1 "", parts.getD 2 "")

/-- The `FUNCTION_NOT_FOUND_ERROR` warning. -/
def functionNotFoundWarning (label functionId : String) : ValidationWarning :=
  ⟨label, "FUNCTION_NOT_FOUND_ERROR",
    "Function \"" ++ functionId ++ "\" not found on-chain"⟩

/-- The `TYPE_ARG_COUNT_ERROR` warning. -/
def typeArgWarning (label : String) (expected provided : Nat) : ValidationWarning :=
  ⟨label, "TYPE_ARG_COUNT_ERROR",
    "Step \"" ++ label ++ "\": expected " ++ Nat.repr expected
      ++ " type argument(s), got " ++ Nat.repr provided⟩

/-- The `SIGNER_COUNT_ERROR` warning. -/
def signerCountWarning (label : String) (expected got : Nat) : ValidationWarning :=
  ⟨label, "SIGNER_COUNT_ERROR",
    "Step \"" ++ label ++ "\": function expects " ++ Nat.repr expected
      ++ " signer(s), but " ++ Nat.repr got ++ " arg.signer() provided"⟩

/-- The `ARG_COUNT_ERROR` warning. -/
def argCountWarning (label : String) (expected got : Nat) : ValidationWarning :=
  ⟨label, "ARG_COUNT_ERROR",
    "Step \"" ++ label ++ "\": expected " ++ Nat.repr expected
      ++ " non-signer argument(s), got " ++ Nat.repr got⟩

/-- The `SIGNER_MISMATCH` warning for a non-signer argument sitting in a
signer position. -/
def signerPosMismatchWarning (label : String) (i : Nat) (kind : String) :
    ValidationWarning :=
  ⟨label, "SIGNER_MISMATCH",
    "Step \"" ++ label ++ "\" arg " ++ Nat.repr i
      ++ ": expected arg.signer() for &signer parameter, got " ++ kind⟩

/-- The `SIGNER_MISMATCH` warning for a signer argument sitting in a
non-signer position. -/
def signerValueMismatchWarning (label : String) (i : Nat) (paramType : String) :
    ValidationWarning :=
  ⟨label, "SIGNER_MISMATCH",
    "Step \"" ++ label ++ "\" arg " ++ Nat.repr i
      ++ ": used arg.signer() but parameter type is \"" ++ paramType
      ++ "\" — use arg.literal(address) instead"⟩

/-- The `UNCONSUMED_RESOURCE` warning. -/
def unconsumedWarning (label : String) (idx : Nat) (retType : String) :
    ValidationWarning :=
  ⟨label, "UNCONSUMED_RESOURCE",
    "Step \"" ++ label ++ "\" return[" ++ Nat.repr idx ++ "] (" ++ retType
      ++ ") is non-droppable but not consumed by any subsequent step — add a deposit or use step"⟩

/-- The per-argument signer/address confusion check of `validateSteps`
(the `for (let i = 0; i < step.args.length; i++)` loop). -/
def signerMismatchWarnings (label : String) (signerCount : Nat)
    (nonSignerParams : List String) (args : List StepArg) :
    List ValidationWarning :=
  args.enum.flatMap (fun p =>
    let i := p.1
    let arg := p.2
    if i < signerCount then
      match arg with
      | .signer => []
      | _ => [signerPosMismatchWarning label i (argKindStr arg)]
    else
      match arg with
      | .signer =>
        [signerValueMismatchWarning label i (nonSignerParams.getD (i - signerCount) "unknown")]
      | _ => [])

/-- The non-droppable-return detection of `validateSteps`: indices of return
types that are structs whose abilities (per the oracle) lack `drop`. -/
def nonDroppableReturnsOf (dropOracle : DropOracle) (returnTypes : List String) :
    List Nat :=
  (List.range returnTypes.length).filter (fun i =>
    let retType := returnTypes.getD i ""
    isStructType retType &&
      match parseStructId retType with
      | some (a, m, s) => dropOracle a m s == some false
      | none => false)

/-- The per-step part of `validateSteps` (step 2 of the algorithm): ABI
lookup, type-argument / signer / argument counts, signer-position check,
non-droppable return detection.  Returns the step's validation (when the ABI
was found) and the step's warnings, in emission order. -/
def validateStep (abiLookup : AbiLookup) (dropOracle : DropOracle)
    (label : String) (step : ComposerStep) :
    Option StepValidation × List ValidationWarning :=
  match parseFunctionId step.function with
  | none => (none, [])
  | some (addr, modName, fnName) =>
    match abiLookup addr modName fnName with
    | none => (none, [functionNotFoundWarning label step.function])
    | some abi =>
      let signerCount := countSignerParams abi.params
      let nonSignerParams := abi.params.drop signerCount
      let returnTypes := abi.ret
      let expectedTypeArgs := abi.genericTypeParamCount
      let providedTypeArgs := (step.typeArguments.getD []).length
      let w1 := if providedTypeArgs ≠ expectedTypeArgs then
          [typeArgWarning label expectedTypeArgs providedTypeArgs] else []
      let signerArgs := step.args.filter (fun a => argKindStr a == "signer")
      let nonSignerArgs := step.args.filter (fun a => argKindStr a != "signer")
      let w2 := if signerArgs.length ≠ signerCount then
          [signerCountWarning label signerCount signerArgs.length] else []
      let w3 := if nonSignerArgs.length ≠ nonSignerParams.length then
          [argCountWarning label nonSignerParams.length nonSignerArgs.length] else []
      let w4 := signerMismatchWarnings label signerCount nonSignerParams step.args
      let nonDroppableReturns := nonDroppableReturnsOf dropOracle returnTypes
      (some { label := label
              function := step.function
              signerCount := signerCount
              params := nonSignerParams
              returnTypes := returnTypes
              nonDroppableReturns := nonDroppableReturns },
        w1 ++ w2 ++ w3 ++ w4)

/-- The consumed-reference key: `` `${arg.step}:${arg.returnIndex}` ``. -/
def refKey (step : String) (returnIndex : Nat) : String :=
  step ++ ":" ++ Nat.repr returnIndex

/-- The `consumedRefs` set (kept as its insertion list; JS `Set.has` is
`List.contains`). -/
def consumedRefsOf (steps : List (String × ComposerStep)) : List String :=
  steps.flatMap (fun p =>
    p.2.args.filterMap (fun a =>
      match a with
      | .ref s j _ => some (refKey s j)
      | _ => none))

/-- Step 3 of `validateSteps`: the `UNCONSUMED_RESOURCE` warnings of one
validation. -/
def unconsumedWarningsFor (consumedRefs : List String) (v : StepValidation) :
    List ValidationWarning :=
  v.nonDroppableReturns.filterMap (fun idx =>
    if consumedRefs.contains (refKey v.label idx) then none
    else some (unconsumedWarning v.label idx (v.returnTypes.getD idx "undefined")))

/-- `validateSteps(aptos, steps)` (`src/dynamic/validate.ts`).  A malformed
function id makes `parseFunctionId` throw inside the parallel ABI fan-out,
rejecting the whole call — modelled as the `Except.error` carrying the first
such message.  Otherwise: per-step validations/warnings in step order,
followed by the cross-step unconsumed-resource analysis. -/
def validateSteps (abiLookup : AbiLookup) (dropOracle : DropOracle)
    (steps : List (String × ComposerStep)) :
    Except String (List StepValidation × List ValidationWarning) :=
  match steps.find? (fun p => (parseFunctionId p.2.function).isNone) with
  | some bad =>
    .error ("Invalid function ID \"" ++ bad.2.function
      ++ "\" — expected \"0xaddr::module::function\"")
  | none =>
    let pairs := steps.map (fun p => validateStep abiLookup dropOracle p.1 p.2)
    let validations := pairs.filterMap (fun r => r.1)
    let stepWarnings := pairs.flatMap (fun r => r.2)
    let consumedRefs := consumedRefsOf steps
    let unconsumed := validations.flatMap (unconsumedWarningsFor consumedRefs)
    .ok (validations, stepWarnings ++ unconsumed)

/-! ## dynamic/composer.ts — argument resolution and `build()`

`CallArgument` values of the script-composer SDK are opaque handles; the
embedding tracks only their provenance: the signer handle, the `idx`-th
return handle of a labelled call, and the derived handles that
`copy()` / `borrow()` / `borrowMut()` produce. -/

inductive CallArg where
  | newSigner (i : Nat)
  | result (step : String) (idx : Nat)
  | copyOf (c : CallArg)
  | borrowOf (c : CallArg)
  | borrowMutOf (c : CallArg)
deriving DecidableEq, Repr

/-- What `resolveArg` returns: a `CallArgument` or a passthrough literal. -/
inductive ResolvedArg where
  | callArg (c : CallArg)
  | lit (v : Lit)
deriving DecidableEq, Repr

/-- The two exceptions `resolveArg` throws, as structured errors: the
"Reference to unknown step" throw and the "has N return value(s), but index
i was requested" throw. -/
inductive ResolveError where
  | unknownStepReference (step : String)
  | returnIndexOutOfBounds (step : String) (available requested : Nat)
deriving DecidableEq, Repr

/-- `applyRefMode(callArg, mode)` (`src/dynamic/composer.ts`). -/
def applyRefMode (callArg : CallArg) (mode : RefMode) : CallArg :=
  match mode with
  | .move => callArg
  | .copy => .copyOf callArg
  | .borrow => .borrowOf callArg
  | .borrow_mut => .borrowMutOf callArg

/-- `resolveArg(a, signer, results)` (`src/dynamic/composer.ts`). -/
def resolveArg (a : StepArg) (signer : CallArg)
    (results : JMap (List CallArg)) : Except ResolveError ResolvedArg :=
  match a with
  | .signer => .ok (.callArg signer)
  | .literal v => .ok (.lit v)
  | .ref step returnIndex _mode =>
    match results step with
    | none => .error (.unknownStepReference step)
    | some stepResults =>
      if h : returnIndex ≥ stepResults.length then
        .error (.returnIndexOutOfBounds step stepResults.length returnIndex)
      else
        .ok (.callArg (applyRefMode (stepResults.get ⟨returnIndex, by omega⟩)
          (match a with
           | .ref _ _ m => m
           | _ => .move)))

/-- The builder loop of `DynamicComposer.build`: resolve each step's
arguments against the handles of the already-composed steps, call the
composition collaborator (whose returned handle list is modelled by
`arity label` fresh result handles) and record them under the step's label.
An exception from `resolveArg` aborts the loop: no later call is resolved. -/
def resolveCalls (arity : String → Nat) (signer : CallArg) :
    List (String × ComposerStep) → JMap (List CallArg) →
    Except ResolveError (List (String × List ResolvedArg))
  | [], _ => .ok []
  | (label, step) :: rest, resultsMap =>
    match step.args.mapM (fun a => resolveArg a signer resultsMap) with
    | .error e => .error e
    | .ok resolvedArgs =>
      let callResults := (List.range (arity label)).map (CallArg.result label)
      match resolveCalls arity signer rest (jset resultsMap label callResults) with
      | .error e => .error e
      | .ok tail => .ok ((label, resolvedArgs) :: tail)

/-- Outcome of `DynamicComposer.build(options?)`, up to the point where the
external composition collaborator (`BuildScriptComposerTransaction`) is or
is not invoked. -/
inductive BuildOutcome where
  /-- The `"DynamicComposer requires at least one step"` throw. -/
  | noStepsError
  /-- The `parseFunctionId` throw escaping `validateSteps`. -/
  | invalidFunctionId (message : String)
  /-- The `"Validation failed:"` throw carrying the hard findings. -/
  | validationFailed (hardErrors : List ValidationWarning)
  /-- The collaborator was invoked; `warnings` is `lastWarnings`, carried
  into the eventual composed result. -/
  | composed (warnings : List ValidationWarning)
deriving DecidableEq, Repr

/-- Did `build` abort by throwing before invoking the collaborator? -/
def BuildOutcome.aborted : BuildOutcome → Bool
  | .composed _ => false
  | _ => true

/-- `DynamicComposer.build` (`src/dynamic/composer.ts`), up to the
collaborator boundary: the no-step guard, validation, the hard-error filter
(`code.endsWith("_ERROR")`), and otherwise composition carrying the
warnings. -/
def build (abiLookup : AbiLookup) (dropOracle : DropOracle)
    (steps : List (String × ComposerStep)) : BuildOutcome :=
  if steps.length == 0 then .noStepsError
  else
    match validateSteps abiLookup dropOracle steps with
    | .error e => .invalidFunctionId e
    | .ok (_, warnings) =>
      let hardErrors := warnings.filter (fun w => strEndsWith w.code "_ERROR")
      if hardErrors.length > 0 then .validationFailed hardErrors
      else .composed warnings

/-! ## Concrete fixtures (used by witness theorems)

A minimal dry-run scenario: owner `"o"`, one tracked token `"a"` with an
initial balance of 200; the simulation of payload `"p1"` writes balance 50
to the owner's derived store (`derive o m = o ++ m`, so store `"oa"`), all
other payloads produce an empty write-set. -/

def witExt : Ext := ⟨fun o m => o ++ m, fun v _ => Int.repr v⟩

def witToken : TokenConfig := { symbol := "A", metadata := "a", decimals := 6 }

def witChange50 : Change :=
  { type := "write_resource", address := some "oa", resource := none
    data := some { type := "0x1::fungible_asset::FungibleStore"
                   data := some { balance := some 50
                                  collaterals := none
                                  liabilities := none } } }

def witSim1 : SimResultM :=
  { success := true, vmStatus := "Executed successfully", gasUsed := 5
    gasCostApt := 0, events := [], raw := [witChange50] }

def witSimEmpty : SimResultM :=
  { success := true, vmStatus := "Executed successfully", gasUsed := 3
    gasCostApt := 0, events := [], raw := [] }

def witSimulate : String → SimResultM :=
  fun p => if p == "p1" then witSim1 else witSimEmpty

def witCtx : DryRunCtx := ⟨witExt, witSimulate, "o", [witToken], none⟩

def witStep (label payload : String) : PlanStep :=
  { label := label, description := "", payload := payload, expectations := none }

def witPlan : SimulationPlan :=
  { name := "w", description := "", owner := "o", tokens := [witToken]
    steps := [witStep "s1" "p1", witStep "s2" "p2", witStep "s3" "p3"]
    vaultMarket := none, vaultProtocol := none }

/-! ## Specification predicates (used only in theorem statements) -/

/-- A write-set change that is allowed to contribute the balance `v` for the
tracked token with metadata `meta`: a `FungibleStore` `write_resource`
carrying a balance, whose (lowercased) address equals the (lowercased)
derived primary-store address of `(owner, t.metadata)` for a tracked token
`t` with `t.metadata = meta`. -/
def GoodWrite (E : Ext) (tokens : List TokenConfig) (owner : String)
    (meta : String) (v : Int) (c : Change) : Prop :=
  c.type = "write_resource"
  ∧ ∃ d, c.data = some d
    ∧ strIncludes d.type "FungibleStore" = true
    ∧ ∃ inner, d.data = some inner
      ∧ inner.balance = some v
      ∧ ∃ addr, c.address = some addr
        ∧ toLowerStr addr ≠ ""
        ∧ ∃ t ∈ tokens, t.metadata = meta
          ∧ toLowerStr (E.derive owner t.metadata) = toLowerStr addr

/-! ## Helper lemmas: decimal rendering -/

theorem natChars_ne_nil (n : Nat) : natChars n ≠ [] := by
  rw [natChars]
  split <;> simp

theorem isDigit_digitChar {m : Nat} (h : m < 10) :
    (Nat.digitChar m).isDigit = true := by
  have : ∀ k : Fin 10, (Nat.digitChar k.1).isDigit = true := by decide
  exact this ⟨m, h⟩

theorem digitChar_inj {a b : Nat} (ha : a < 10) (hb : b < 10)
    (h : Nat.digitChar a = Nat.digitChar b) : a = b := by
  have : ∀ x y : Fin 10, Nat.digitChar x.1 = Nat.digitChar y.1 → x = y := by decide
  have := this ⟨a, ha⟩ ⟨b, hb⟩ h
  exact congrArg Fin.val this

theorem natChars_isDigit (n : Nat) : ∀ c ∈ natChars n, c.isDigit = true := by
  induction n using Nat.strong_induction_on with
  | _ n ih =>
    rw [natChars]
    split
    · intro c hc
      rw [List.mem_singleton] at hc
      subst hc
      exact isDigit_digitChar (by omega)
    · intro c hc
      rw [List.mem_append] at hc
      rcases hc with hc | hc
      · exact ih (n / 10) (Nat.div_lt_self (by omega) (by omega)) c hc
      · rw [List.mem_singleton] at hc
        subst hc
        exact isDigit_digitChar (Nat.mod_lt _ (by omega))

theorem natChars_lt {n : Nat} (h : n < 10) : natChars n = [Nat.digitChar n] := by
  rw [natChars]; exact dif_pos h

theorem natChars_ge {n : Nat} (h : ¬ n < 10) :
    natChars n = natChars (n / 10) ++ [Nat.digitChar (n % 10)] := by
  rw [natChars]; exact dif_neg h

theorem natChars_inj : ∀ m n : Nat, natChars m = natChars n → m = n := by
  intro m
  induction m using Nat.strong_induction_on with
  | _ m ih =>
    intro n h
    rcases Nat.lt_or_ge m 10 with hm | hm <;> rcases Nat.lt_or_ge n 10 with hn | hn
    · rw [natChars_lt hm, natChars_lt hn] at h
      exact digitChar_inj hm hn (List.singleton_injective h)
    · rw [natChars_lt hm, natChars_ge (by omega)] at h
      cases hne : natChars (n / 10) with
      | nil => exact absurd hne (natChars_ne_nil _)
      | cons a l =>
        rw [hne] at h
        have := congrArg List.length h
        simp at this
    · rw [natChars_ge (by omega), natChars_lt hn] at h
      cases hne : natChars (m / 10) with
      | nil => exact absurd hne (natChars_ne_nil _)
      | cons a l =>
        rw [hne] at h
        have := congrArg List.length h
        simp at this
    · rw [natChars_ge (show ¬ m < 10 by omega), natChars_ge (show ¬ n < 10 by omega)] at h
      obtain ⟨h1, h2⟩ := List.append_inj' h (by rfl)
      have hdiv : m / 10 = n / 10 :=
        ih (m / 10) (Nat.div_lt_self (by omega) (by omega)) (n / 10) h1
      have hmod : m % 10 = n % 10 :=
        digitChar_inj (Nat.mod_lt _ (by omega)) (Nat.mod_lt _ (by omega))
          (List.singleton_injective h2)
      omega

theorem toDigitsCore_natChars :
    ∀ (fuel n : Nat) (acc : List Char), n < fuel →
      Nat.toDigitsCore 10 fuel n acc = natChars n ++ acc := by
  intro fuel
  induction fuel with
  | zero => intro n acc h; omega
  | succ f ihf =>
    intro n acc h
    simp only [Nat.toDigitsCore]
    by_cases h0 : n / 10 = 0
    · rw [if_pos h0, natChars_lt (by omega)]
      have : n % 10 = n := Nat.mod_eq_of_lt (by omega)
      rw [this]
      simp
    · rw [if_neg h0, natChars_ge (by omega)]
      rw [ihf (n / 10) _ (by
        have := Nat.div_lt_self (show 0 < n by omega) (show 1 < 10 by omega)
        omega)]
      simp

theorem repr_data (n : Nat) : (Nat.repr n).data = natChars n := by
  show (Nat.toDigits 10 n).asString.data = natChars n
  rw [Nat.toDigits, toDigitsCore_natChars (n + 1) n [] (by omega)]
  simp [List.asString]

theorem nat_repr_inj {m n : Nat} (h : Nat.repr m = Nat.repr n) : m = n := by
  apply natChars_inj
  rw [← repr_data, ← repr_data, h]

theorem no_colon_natChars (n : Nat) : ':' ∉ natChars n := by
  intro hmem
  have := natChars_isDigit n ':' hmem
  simp [Char.isDigit] at this

theorem no_rbracket_natChars (n : Nat) : ']' ∉ natChars n := by
  intro hmem
  have := natChars_isDigit n ']' hmem
  simp [Char.isDigit] at this

/-- In `L₁ ++ c :: R₁ = L₂ ++ c :: R₂`, when `c` occurs in neither `L₁` nor
`L₂` the shown occurrence is the first one on both sides, so the splits
agree. -/
theorem append_sep_inj {c : Char} :
    ∀ {L₁ L₂ R₁ R₂ : List Char}, c ∉ L₁ → c ∉ L₂ →
      L₁ ++ c :: R₁ = L₂ ++ c :: R₂ → L₁ = L₂ ∧ R₁ = R₂ := by
  intro L₁
  induction L₁ with
  | nil =>
    intro L₂ R₁ R₂ _ h₂ h
    cases L₂ with
    | nil => simpa using h
    | cons b t =>
      simp only [List.nil_append, List.cons_append, List.cons.injEq] at h
      exact absurd (h.1 ▸ List.mem_cons_self b t) h₂
  | cons a t ih =>
    intro L₂ R₁ R₂ h₁ h₂ h
    cases L₂ with
    | nil =>
      simp only [List.cons_append, List.nil_append, List.cons.injEq] at h
      exact absurd (h.1 ▸ List.mem_cons_self a t) h₁
    | cons b t₂ =>
      simp only [List.cons_append, List.cons.injEq] at h
      obtain ⟨hab, h'⟩ := h
      have := ih (fun hm => h₁ (List.mem_cons_of_mem a hm))
        (fun hm => h₂ (hab ▸ List.mem_cons_of_mem b hm)) h'
      exact ⟨by rw [hab, this.1], this.2⟩

theorem refKey_inj {s₁ s₂ : String} {i₁ i₂ : Nat}
    (h : refKey s₁ i₁ = refKey s₂ i₂) : s₁ = s₂ ∧ i₁ = i₂ := by
  have hd := congrArg String.data h
  simp only [refKey, String.data_append, repr_data] at hd
  have hd' : s₁.data ++ ':' :: natChars i₁ = s₂.data ++ ':' :: natChars i₂ := by
    simpa [List.append_assoc] using hd
  have hrev := congrArg List.reverse hd'
  simp only [List.reverse_append, List.reverse_cons, List.append_assoc,
    List.singleton_append] at hrev
  have hsplit := append_sep_inj
    (fun hm => no_colon_natChars i₁ (List.mem_reverse.mp hm))
    (fun hm => no_colon_natChars i₂ (List.mem_reverse.mp hm))
    hrev
  refine ⟨String.ext (List.reverse_injective hsplit.2), natChars_inj _ _ ?_⟩
  exact List.reverse_injective hsplit.1

/-- The index embedded in an `UNCONSUMED_RESOURCE` message is recoverable:
equal messages for the same label force equal indices. -/
theorem unconsumedWarning_index_inj {l : String} {i₁ i₂ : Nat} {t₁ t₂ : String}
    (h : unconsumedWarning l i₁ t₁ = unconsumedWarning l i₂ t₂) : i₁ = i₂ := by
  have hmsg := congrArg ValidationWarning.message h
  simp only [unconsumedWarning] at hmsg
  have hd := congrArg String.data hmsg
  simp only [String.data_append, List.append_assoc] at hd
  have hcancel := List.append_cancel_left (List.append_cancel_left (List.append_cancel_left hd))
  rw [repr_data, repr_data] at hcancel
  have := @append_sep_inj ']' _ _ _ _ (no_rbracket_natChars i₁) (no_rbracket_natChars i₂)
    (by exact hcancel)
  exact natChars_inj _ _ this.1

/-! ## Claims -/

/-- C10: `extractVaultFromSimulation` never reads its `protocolAddress`
argument: for every raw simulation outcome and any two protocol address
strings the results are equal — matching is purely by the `"Vault"` /
`"lending::Vault"` substring tests on the change's resource type, first
matching change wins. -/
theorem extractVault_protocolAddress_irrelevant :
    ∀ (raw : List Change) (p₁ p₂ : String),
      extractVaultFromSimulation raw p₁ = extractVaultFromSimulation raw p₂ := by
  intro raw
  induction raw with
  | nil => intro p₁ p₂; rfl
  | cons c rest ih =>
    intro p₁ p₂
    simp only [extractVaultFromSimulation]
    repeat' split
    all_goals first | rfl | exact ih _ _

/-- C7: on the VM status `"Move abort: 0x10004 at 0xADDR::lending"` the
diagnosis is exactly one entry with code `LENDING_ERROR`: the first rule of
the ordered table that matches this status is the lending rule, so it wins
over the generic `ABORTED` catch-all that sits below it. -/
theorem diagnose_lending_abort_wins :
    diagnoseVmStatus "Move abort: 0x10004 at 0xADDR::lending" none =
      [{ severity := .error
         code := "LENDING_ERROR"
         title := "Lending protocol error"
         detail := "The lending protocol rejected the operation."
         suggestion := "Check: repay amount <= debt, withdrawal won\x27t breach health factor, position exists."
         stepLabel := none }]
    ∧ (ERROR_PATTERNS.find?
        (fun p => p.test "Move abort: 0x10004 at 0xADDR::lending")).map
          (fun p => p.code) = some "LENDING_ERROR" := by
  constructor
  · decide
  · decide

/-- C8: `diagnoseVmStatus` returns the empty list exactly when the status is
empty or the executed-successfully status; any other status yields exactly
one diagnosis — the first matching rule's, or the generic `UNKNOWN_ERROR`
carrying the raw status when no rule matches. -/
theorem diagnose_empty_iff_success :
    ∀ (s : String) (l : Option String),
      (diagnoseVmStatus s l = [] ↔ s = "" ∨ s = "Executed successfully")
      ∧ (s ≠ "" → s ≠ "Executed successfully" →
          (diagnoseVmStatus s l).length = 1
          ∧ (match ERROR_PATTERNS.find? (fun p => p.test s) with
             | some p => diagnoseVmStatus s l = [diagnosisOf p l]
             | none => diagnoseVmStatus s l = [unknownDiagnosis s l])) := by
  intro s l
  by_cases h1 : s = "" ∨ s = "Executed successfully"
  · have hval : diagnoseVmStatus s l = [] := by
      rcases h1 with h | h <;> subst h <;> rfl
    refine ⟨⟨fun _ => h1, fun _ => hval⟩, fun hn1 hn2 => ?_⟩
    rcases h1 with h | h
    · exact absurd h hn1
    · exact absurd h hn2
  · push_neg at h1
    obtain ⟨hn1, hn2⟩ := h1
    have hcond : (s == "" || s == "Executed successfully") = false := by
      simp [hn1, hn2]
    have hbody : diagnoseVmStatus s l =
        (let errors : List DiagnosedError :=
          match ERROR_PATTERNS.find? (fun p => p.test s) with
          | some p => [diagnosisOf p l]
          | none => []
        if errors.length == 0 && !(s == "Executed successfully") then
          errors ++ [unknownDiagnosis s l]
        else errors) := by
      unfold diagnoseVmStatus
      rw [if_neg (by simp [hcond])]
    cases hfind : ERROR_PATTERNS.find? (fun p => p.test s) with
    | some p =>
      have heq : diagnoseVmStatus s l = [diagnosisOf p l] := by
        rw [hbody]
        simp [hfind]
      refine ⟨⟨fun hemp => ?_, fun h => absurd h (by push_neg; exact ⟨hn1, hn2⟩)⟩,
        fun _ _ => ?_⟩
      · rw [heq] at hemp; exact absurd hemp (by simp)
      · refine ⟨by rw [heq]; rfl, ?_⟩
        simp only [hfind]
        exact heq
    | none =>
      have heq : diagnoseVmStatus s l = [unknownDiagnosis s l] := by
        rw [hbody]
        simp [hfind, hn2]
      refine ⟨⟨fun hemp => ?_, fun h => absurd h (by push_neg; exact ⟨hn1, hn2⟩)⟩,
        fun _ _ => ?_⟩
      · rw [heq] at hemp; exact absurd hemp (by simp)
      · refine ⟨by rw [heq]; rfl, ?_⟩
        simp only [hfind]
        exact heq

/-- C8 witness: the hypotheses of `diagnose_empty_iff_success` discharged at
the concrete status `"some strange failure"` (no table rule matches, so the
single diagnosis is the generic `UNKNOWN_ERROR`). -/
theorem diagnose_empty_iff_success_witness :
    ("some strange failure" ≠ "" ∧ "some strange failure" ≠ "Executed successfully")
    ∧ (diagnoseVmStatus "some strange failure" none).length = 1 := by
  refine ⟨⟨by decide, by decide⟩, ?_⟩
  exact ((diagnose_empty_iff_success "some strange failure" none).2
    (by decide) (by decide)).1

/-- C2 counterexample: on the empty step graph `build` aborts by throwing
(`"DynamicComposer requires at least one step"`) without invoking the
collaborator, although validating the empty graph produces no findings at
all — refuting the claimed "if and only if" as stated. -/
theorem build_empty_graph_counterexample :
    (build (fun _ _ _ => none) (fun _ _ _ => none) []).aborted = true
    ∧ validateSteps (fun _ _ _ => none) (fun _ _ _ => none) [] = .ok ([], []) :=
  ⟨rfl, rfl⟩

/-- C2 (amended): for every **non-empty** step graph on which validation
returns (rather than throwing on a malformed function id), `build` aborts by
throwing without invoking the external composition collaborator iff at least
one finding's code ends in `_ERROR`; when no finding's code has that suffix,
building proceeds and the findings are carried into the result. -/
theorem build_aborts_iff_hard_finding :
    ∀ (abiLookup : AbiLookup) (dropOracle : DropOracle)
      (steps : List (String × ComposerStep))
      (vals : List StepValidation) (warns : List ValidationWarning),
      steps ≠ [] →
      validateSteps abiLookup dropOracle steps = .ok (vals, warns) →
      ((build abiLookup dropOracle steps).aborted = true
        ↔ ∃ w ∈ warns, strEndsWith w.code "_ERROR" = true)
      ∧ ((∀ w ∈ warns, strEndsWith w.code "_ERROR" = false) →
          build abiLookup dropOracle steps = .composed warns) := by
  intro abiLookup dropOracle steps vals warns hne hok
  have hlen : (steps.length == 0) = false := by
    cases steps with
    | nil => exact absurd rfl hne
    | cons a t => rfl
  have hbuild : build abiLookup dropOracle steps =
      (let hardErrors := warns.filter (fun w => strEndsWith w.code "_ERROR")
       if hardErrors.length > 0 then .validationFailed hardErrors
       else .composed warns) := by
    unfold build
    rw [hlen, hok]
    rfl
  by_cases hany : ∃ w ∈ warns, strEndsWith w.code "_ERROR" = true
  · obtain ⟨w, hw, hpw⟩ := hany
    have hmem : w ∈ warns.filter (fun w => strEndsWith w.code "_ERROR") :=
      List.mem_filter.mpr ⟨hw, hpw⟩
    have hpos : (warns.filter (fun w => strEndsWith w.code "_ERROR")).length > 0 :=
      List.length_pos.mpr (List.ne_nil_of_mem hmem)
    have : build abiLookup dropOracle steps =
        .validationFailed (warns.filter (fun w => strEndsWith w.code "_ERROR")) := by
      rw [hbuild]
      simp only [if_pos hpos]
    refine ⟨⟨fun _ => ⟨w, hw, hpw⟩, fun _ => by rw [this]; rfl⟩, fun hall => ?_⟩
    exact absurd (hall w hw) (by simp [hpw])
  · have hnil : warns.filter (fun w => strEndsWith w.code "_ERROR") = [] := by
      rw [List.filter_eq_nil_iff]
      intro w hw
      simp only [Bool.not_eq_true]
      by_contra hcon
      exact hany ⟨w, hw, by simpa using hcon⟩
    have : build abiLookup dropOracle steps = .composed warns := by
      rw [hbuild]
      simp only [hnil]
      rfl
    refine ⟨⟨fun habort => ?_, fun hex => absurd hex hany⟩, fun _ => this⟩
    rw [this] at habort
    exact absurd habort (by simp [BuildOutcome.aborted])

/-- C2 witness: a one-step graph whose function resolves to a
zero-parameter, zero-return ABI validates with no findings, and `build`
proceeds to composition carrying the empty finding list. -/
theorem build_aborts_iff_hard_finding_witness :
    (([("a", ({ function := "0x1::m::f", typeArguments := none, args := [] } : ComposerStep))] :
        List (String × ComposerStep)) ≠ [])
    ∧ build (fun _ _ _ => some { params := [], ret := [], genericTypeParamCount := 0 })
        (fun _ _ _ => none)
        [("a", { function := "0x1::m::f", typeArguments := none, args := [] })]
      = .composed [] := by
  refine ⟨by simp, ?_⟩
  exact (build_aborts_iff_hard_finding
    (fun _ _ _ => some { params := [], ret := [], genericTypeParamCount := 0 })
    (fun _ _ _ => none)
    [("a", { function := "0x1::m::f", typeArguments := none, args := [] })]
    [{ label := "a", function := "0x1::m::f", signerCount := 0, params := [],
       returnTypes := [], nonDroppableReturns := [] }]
    [] (by simp) (by rfl)).2 (by simp)

/-- C9: resolving a `Ref` fails with the unknown-step-reference error when
the referenced label has no recorded handle list yet, fails with the
return-index-out-of-bounds error when the index is not below the referenced
step's output arity, and on success returns the original handle for `move`
and the derived copy/borrow/borrow-mut handle for the other modes; an
argument-resolution error aborts the builder loop, so no later call is
resolved. -/
theorem resolveArg_ref_semantics :
    ∀ (signer : CallArg) (results : JMap (List CallArg)) (step : String)
      (returnIndex : Nat) (mode : RefMode),
      (results step = none →
        resolveArg (.ref step returnIndex mode) signer results
          = .error (.unknownStepReference step))
      ∧ (∀ handles, results step = some handles → handles.length ≤ returnIndex →
          resolveArg (.ref step returnIndex mode) signer results
            = .error (.returnIndexOutOfBounds step handles.length returnIndex))
      ∧ (∀ handles (h : returnIndex < handles.length), results step = some handles →
          resolveArg (.ref step returnIndex mode) signer results
            = .ok (.callArg (applyRefMode (handles.get ⟨returnIndex, h⟩) mode))
          ∧ applyRefMode (handles.get ⟨returnIndex, h⟩) .move
              = handles.get ⟨returnIndex, h⟩
          ∧ applyRefMode (handles.get ⟨returnIndex, h⟩) .copy
              = .copyOf (handles.get ⟨returnIndex, h⟩)
          ∧ applyRefMode (handles.get ⟨returnIndex, h⟩) .borrow
              = .borrowOf (handles.get ⟨returnIndex, h⟩)
          ∧ applyRefMode (handles.get ⟨returnIndex, h⟩) .borrow_mut
              = .borrowMutOf (handles.get ⟨returnIndex, h⟩))
      ∧ (∀ (label : String) (cstep : ComposerStep)
          (rest : List (String × ComposerStep)) (arity : String → Nat)
          (e : ResolveError),
          cstep.args.mapM (fun a => resolveArg a signer results) = .error e →
          resolveCalls arity signer ((label, cstep) :: rest) results = .error e) := by
  intro signer results step returnIndex mode
  refine ⟨?_, ?_, ?_, ?_⟩
  · intro h
    simp [resolveArg, h]
  · intro handles hsome hle
    simp only [resolveArg, hsome]
    rw [dif_pos (by omega)]
  · intro handles h hsome
    refine ⟨?_, rfl, rfl, rfl, rfl⟩
    simp only [resolveArg, hsome]
    rw [dif_neg (by omega)]
  · intro label cstep rest arity e hmap
    simp only [List.mapM] at hmap
    simp [resolveCalls, hmap]

/-- C9 witness: `resolveArg_ref_semantics` applied to a concrete results map
holding one handle under label `"w"`: the in-bounds `copy`-mode reference
resolves to the derived copy of that handle. -/
theorem resolveArg_ref_semantics_witness :
    (jset (jempty : JMap (List CallArg)) "w" [CallArg.result "w" 0]) "w"
        = some [CallArg.result "w" 0]
    ∧ resolveArg (.ref "w" 0 .copy) (.newSigner 0)
        (jset jempty "w" [CallArg.result "w" 0])
      = .ok (.callArg (.copyOf (.result "w" 0))) := by
  refine ⟨rfl, ?_⟩
  exact ((resolveArg_ref_semantics (.newSigner 0)
    (jset jempty "w" [CallArg.result "w" 0]) "w" 0 .copy).2.2.1
    [CallArg.result "w" 0] (by decide) rfl).1

/-! ### C1 lemmas -/

theorem expectedStores_fold_some (E : Ext) (owner : String) :
    ∀ (tokens : List TokenConfig) (acc : JMap String) (k m : String),
      (tokens.foldl
        (fun m token => jset m (toLowerStr (E.derive owner token.metadata)) token.metadata)
        acc) k = some m →
      (∃ t ∈ tokens, t.metadata = m ∧ toLowerStr (E.derive owner t.metadata) = k)
        ∨ acc k = some m := by
  intro tokens
  induction tokens with
  | nil => intro acc k m h; exact Or.inr h
  | cons t ts ih =>
    intro acc k m h
    rcases ih _ k m h with h' | h'
    · obtain ⟨t', ht', hm, hk⟩ := h'
      exact Or.inl ⟨t', List.mem_cons_of_mem t ht', hm, hk⟩
    · simp only [jset] at h'
      by_cases hk : k = toLowerStr (E.derive owner t.metadata)
      · rw [if_pos (by simp [hk])] at h'
        exact Or.inl ⟨t, List.mem_cons_self t ts, by simpa using h', hk.symm⟩
      · rw [if_neg (by simp [hk])] at h'
        exact Or.inr h'

theorem expectedStoresMap_some {E : Ext} {owner : String}
    {tokens : List TokenConfig} {k m : String}
    (h : expectedStoresMap E owner tokens k = some m) :
    ∃ t ∈ tokens, t.metadata = m ∧ toLowerStr (E.derive owner t.metadata) = k := by
  rcases expectedStores_fold_some E owner tokens jempty k m h with h' | h'
  · exact h'
  · exact absurd h' (by simp [jempty])

theorem expectedStoresMap_none {E : Ext} {owner : String}
    {tokens : List TokenConfig} {k : String}
    (h : ∀ t ∈ tokens, toLowerStr (E.derive owner t.metadata) ≠ k) :
    expectedStoresMap E owner tokens k = none := by
  cases hv : expectedStoresMap E owner tokens k with
  | none => rfl
  | some m =>
    obtain ⟨t, ht, _, hk⟩ := expectedStoresMap_some hv
    exact absurd hk (h t ht)

theorem extractBalancesStep_some {expected : JMap String} {acc : JMap Int}
    {c : Change} {meta : String} {v : Int}
    (h : extractBalancesStep expected acc c meta = some v) :
    acc meta = some v
    ∨ (c.type = "write_resource"
        ∧ ∃ d, c.data = some d
          ∧ strIncludes d.type "FungibleStore" = true
          ∧ ∃ inner, d.data = some inner
            ∧ inner.balance = some v
            ∧ ∃ addr, c.address = some addr
              ∧ toLowerStr addr ≠ ""
              ∧ expected (toLowerStr addr) = some meta) := by
  obtain ⟨ctype, caddr, cres, cdata⟩ := c
  by_cases ht : ctype = "write_resource"
  case neg =>
    left
    simpa [extractBalancesStep, ht] using h
  case pos =>
    subst ht
    cases cdata with
    | none => left; simpa [extractBalancesStep] using h
    | some d =>
      cases hfs : strIncludes d.type "FungibleStore" with
      | false => left; simpa [extractBalancesStep, hfs] using h
      | true =>
        cases caddr with
        | none => left; simpa [extractBalancesStep, hfs] using h
        | some addr =>
          by_cases ha0 : toLowerStr addr = ""
          case pos =>
            left
            simpa [extractBalancesStep, hfs, ha0] using h
          case neg =>
            cases hexp : expected (toLowerStr addr) with
            | none => left; simpa [extractBalancesStep, hfs, ha0, hexp] using h
            | some cm =>
              cases hdd : d.data with
              | none => left; simpa [extractBalancesStep, hfs, ha0, hexp, hdd] using h
              | some inner =>
                cases hbal : inner.balance with
                | none =>
                  left
                  simpa [extractBalancesStep, hfs, ha0, hexp, hdd, hbal] using h
                | some b =>
                  simp only [extractBalancesStep, hfs, hexp, hdd, hbal] at h
                  simp only [bne_self_eq_false, Bool.not_true, if_false,
                    Bool.false_eq_true] at h
                  rw [if_neg (by simpa using ha0)] at h
                  by_cases hm : meta = cm
                  · subst hm
                    right
                    have hb : some b = some v := by simpa [jset] using h
                    refine ⟨rfl, d, rfl, hfs, inner, hdd, ?_, addr, rfl, ha0, hexp⟩
                    rw [hbal]; exact hb
                  · left
                    simpa [jset, hm] using h

theorem extractBalancesStep_skip {expected : JMap String} {acc : JMap Int}
    {c : Change}
    (h : ∀ addr, c.address = some addr → expected (toLowerStr addr) = none) :
    extractBalancesStep expected acc c = acc := by
  obtain ⟨ctype, caddr, cres, cdata⟩ := c
  by_cases ht : ctype = "write_resource"
  case neg => simp [extractBalancesStep, ht]
  case pos =>
    subst ht
    cases cdata with
    | none => simp [extractBalancesStep]
    | some d =>
      cases hfs : strIncludes d.type "FungibleStore" with
      | false => simp [extractBalancesStep, hfs]
      | true =>
        cases caddr with
        | none => simp [extractBalancesStep, hfs]
        | some addr =>
          by_cases ha0 : toLowerStr addr = ""
          · simp [extractBalancesStep, hfs, ha0]
          · simp [extractBalancesStep, hfs, ha0, h addr rfl]

theorem extract_fold_some (E : Ext) (tokens : List TokenConfig) (owner : String) :
    ∀ (raw : List Change) (acc : JMap Int) (meta : String) (v : Int),
      (raw.foldl (extractBalancesStep (expectedStoresMap E owner tokens)) acc) meta
          = some v →
      (∃ c ∈ raw, GoodWrite E tokens owner meta v c) ∨ acc meta = some v := by
  intro raw
  induction raw with
  | nil => intro acc meta v h; exact Or.inr h
  | cons c cs ih =>
    intro acc meta v h
    rcases ih _ meta v h with h' | h'
    · obtain ⟨c', hc', hg⟩ := h'
      exact Or.inl ⟨c', List.mem_cons_of_mem c hc', hg⟩
    · rcases extractBalancesStep_some h' with hacc | hgood
      · exact Or.inr hacc
      · obtain ⟨ht, d, hd, hfs, inner, hinner, hbal, addr, haddr, ha0, hexp⟩ := hgood
        obtain ⟨t, htmem, htm, htk⟩ := expectedStoresMap_some hexp
        exact Or.inl ⟨c, List.mem_cons_self c cs,
          ht, d, hd, hfs, inner, hinner, hbal, addr, haddr, ha0, t, htmem, htm, htk⟩

/-- C1: `extractBalancesFromSimulation` attributes a `FungibleStore`
`write_resource` change to a tracked token only when the change's store
address equals (case-insensitively) the deterministically derived
primary-store address of `(owner, token.metadata)`: every extracted balance
comes from such a change, and appending a write at any other address (e.g. a
pool's store) leaves the extraction unchanged. -/
theorem extractBalances_matches_only_derived_store :
    ∀ (E : Ext) (raw : List Change) (tokens : List TokenConfig) (owner : String),
      (∀ (meta : String) (v : Int),
        extractBalancesFromSimulation E raw tokens owner meta = some v →
        ∃ c ∈ raw, GoodWrite E tokens owner meta v c)
      ∧ (∀ c : Change,
          (∀ t ∈ tokens,
            c.address.map toLowerStr ≠ some (toLowerStr (E.derive owner t.metadata))) →
          extractBalancesFromSimulation E (raw ++ [c]) tokens owner
            = extractBalancesFromSimulation E raw tokens owner) := by
  intro E raw tokens owner
  constructor
  · intro meta v h
    rcases extract_fold_some E tokens owner raw jempty meta v h with h' | h'
    · exact h'
    · exact absurd h' (by simp [jempty])
  · intro c hc
    show (raw ++ [c]).foldl _ _ = _
    rw [List.foldl_append]
    apply extractBalancesStep_skip
    intro addr haddr
    apply expectedStoresMap_none
    intro t ht heq
    exact hc t ht (by rw [haddr]; exact congrArg some heq.symm)

/-- C1 witness: with a concrete derivation function, one tracked token and a
simulated write at a pool's store address (not the owner's derived store),
appending that write contributes nothing to the extraction. -/
theorem extractBalances_matches_only_derived_store_witness :
    (∀ t ∈ [({ symbol := "USD", metadata := "0xT", decimals := 6 } : TokenConfig)],
      (some "0xpool" : Option String).map toLowerStr
        ≠ some (toLowerStr ((fun o m => o ++ m) "0xa" t.metadata)))
    ∧ extractBalancesFromSimulation ⟨fun o m => o ++ m, fun v _ => Int.repr v⟩
        ([] ++ [{ type := "write_resource", address := some "0xpool", resource := none
                  data := some { type := "0x1::fungible_asset::FungibleStore"
                                 data := some { balance := some 999
                                                collaterals := none
                                                liabilities := none } } }])
        [{ symbol := "USD", metadata := "0xT", decimals := 6 }] "0xa"
      = extractBalancesFromSimulation ⟨fun o m => o ++ m, fun v _ => Int.repr v⟩ []
          [{ symbol := "USD", metadata := "0xT", decimals := 6 }] "0xa" := by
  refine ⟨by decide, ?_⟩
  exact (extractBalances_matches_only_derived_store
    ⟨fun o m => o ++ m, fun v _ => Int.repr v⟩ []
    [{ symbol := "USD", metadata := "0xT", decimals := 6 }] "0xa").2
    { type := "write_resource", address := some "0xpool", resource := none
      data := some { type := "0x1::fungible_asset::FungibleStore"
                     data := some { balance := some 999
                                    collaterals := none
                                    liabilities := none } } }
    (by decide)

/-! ### C4/C5/C6 lemmas: the dry-run step loop -/

theorem runSteps_append (ctx : DryRunCtx) :
    ∀ (l₁ l₂ : List PlanStep) (cur : JMap Int) (vault : Option VaultSnapshot)
      (flag : Bool),
      runSteps ctx cur vault flag (l₁ ++ l₂) =
        { current := (runSteps ctx
            (runSteps ctx cur vault flag l₁).current
            (runSteps ctx cur vault flag l₁).vault
            (runSteps ctx cur vault flag l₁).allSuccess l₂).current
          vault := (runSteps ctx
            (runSteps ctx cur vault flag l₁).current
            (runSteps ctx cur vault flag l₁).vault
            (runSteps ctx cur vault flag l₁).allSuccess l₂).vault
          allSuccess := (runSteps ctx
            (runSteps ctx cur vault flag l₁).current
            (runSteps ctx cur vault flag l₁).vault
            (runSteps ctx cur vault flag l₁).allSuccess l₂).allSuccess
          results := (runSteps ctx cur vault flag l₁).results
            ++ (runSteps ctx
                (runSteps ctx cur vault flag l₁).current
                (runSteps ctx cur vault flag l₁).vault
                (runSteps ctx cur vault flag l₁).allSuccess l₂).results } := by
  intro l₁
  induction l₁ with
  | nil => intro l₂ cur vault flag; rfl
  | cons s rest ih =>
    intro l₂ cur vault flag
    simp only [List.cons_append, runSteps, List.append_eq]
    rw [ih]

/-- C4: in the sequential dry-run engine, a step whose simulation produces
no fungible-store write for a tracked token leaves that token's
carried-forward balance exactly as it was before the step (the prior known
value — never zero, never a reversion to the initial snapshot), and that
carried value is what the step's recorded `balancesAfter` reports. -/
theorem dryRun_carry_forward :
    ∀ (ctx : DryRunCtx) (cur : JMap Int) (vault : Option VaultSnapshot)
      (flag : Bool) (pre : List PlanStep) (step : PlanStep) (meta : String),
      extractBalancesFromSimulation ctx.E (ctx.simulate step.payload).raw
          ctx.tokens ctx.owner meta = none →
      ((runSteps ctx cur vault flag (pre ++ [step])).current meta
          = (runSteps ctx cur vault flag pre).current meta)
      ∧ ((runSteps ctx cur vault flag (pre ++ [step])).results.getLast?.map
            (fun r => r.balancesAfter meta)
          = some ((runSteps ctx cur vault flag pre).current meta)) := by
  intro ctx cur vault flag pre step meta hnone
  rw [runSteps_append]
  simp only [runSteps]
  constructor
  · simp only [dryRunStep, jmerge, hnone]
  · rw [List.getLast?_concat]
    simp only [dryRunStep, Option.map_some]
    simp [jmerge, hnone]

/-- C4 witness: the spec's three-step scenario — the initial balance of
token `a` is 200, step 1's simulation rewrites it to 50, steps 2 and 3 never
touch the token; after step 3 the carried-forward balance is still 50. -/
theorem dryRun_carry_forward_witness :
    extractBalancesFromSimulation witCtx.E (witCtx.simulate "p3").raw
        witCtx.tokens witCtx.owner "a" = none
    ∧ (runSteps witCtx (jset jempty "a" 200) none true
          [witStep "s1" "p1", witStep "s2" "p2", witStep "s3" "p3"]).current "a"
        = (runSteps witCtx (jset jempty "a" 200) none true
            [witStep "s1" "p1", witStep "s2" "p2"]).current "a"
    ∧ (runSteps witCtx (jset jempty "a" 200) none true
          [witStep "s1" "p1", witStep "s2" "p2", witStep "s3" "p3"]).current "a"
        = some 50 := by
  refine ⟨by decide, ?_, by decide⟩
  exact (dryRun_carry_forward witCtx (jset jempty "a" 200) none true
    [witStep "s1" "p1", witStep "s2" "p2"] (witStep "s3" "p3") "a" (by decide)).1

/-! ### C5 lemmas: telescoping of per-step deltas -/

theorem foldl_jset_some (initBal : String → Int) :
    ∀ (tokens : List TokenConfig) (acc : JMap Int) (k : String),
      ((∃ b, acc k = some b) ∨ (∃ t ∈ tokens, t.metadata = k)) →
      ∃ b, (tokens.foldl (fun m t => jset m t.metadata (initBal t.metadata)) acc) k
        = some b := by
  intro tokens
  induction tokens with
  | nil =>
    intro acc k h
    rcases h with h | ⟨t, ht, _⟩
    · exact h
    · exact absurd ht (List.not_mem_nil t)
  | cons hd tl ih =>
    intro acc k h
    simp only [List.foldl_cons]
    rcases h with ⟨b, hb⟩ | ⟨t, ht, hk⟩
    · apply ih
      left
      by_cases hk : k = hd.metadata
      · exact ⟨initBal hd.metadata, by simp [jset, hk]⟩
      · exact ⟨b, by simp [jset, hk, hb]⟩
    · rcases List.mem_cons.mp ht with rfl | htl
      · apply ih
        left
        exact ⟨initBal t.metadata, by simp [jset, hk]⟩
      · exact ih _ k (Or.inr ⟨t, htl, hk⟩)

theorem captureBalances_some (initBal : String → Int) (tokens : List TokenConfig)
    (t : TokenConfig) (ht : t ∈ tokens) :
    ∃ b, captureBalances initBal tokens t.metadata = some b :=
  foldl_jset_some initBal tokens jempty t.metadata (Or.inr ⟨t, ht, rfl⟩)

theorem computeDeltas_delta (E : Ext) (before after : JMap Int)
    (tokens : List TokenConfig) (j : Nat) (hj : j < tokens.length) :
    ((computeDeltas E before after tokens)[j]?.map (fun d => d.delta)).getD 0
      = (after (tokens[j].metadata)).getD ((before (tokens[j].metadata)).getD 0)
        - (before (tokens[j].metadata)).getD 0 := by
  simp [computeDeltas, List.getElem?_eq_getElem hj]

theorem computeDeltas_getElem?_isSome (E : Ext) (before after : JMap Int)
    (tokens : List TokenConfig) (j : Nat) (hj : j < tokens.length) :
    ((computeDeltas E before after tokens)[j]?).isSome = true := by
  simp [computeDeltas, List.getElem?_eq_getElem hj]

theorem runSteps_telescope (ctx : DryRunCtx) (j : Nat) (hj : j < ctx.tokens.length) :
    ∀ (steps : List PlanStep) (cur : JMap Int) (vault : Option VaultSnapshot)
      (flag : Bool) (b : Int),
      cur (ctx.tokens[j].metadata) = some b →
      ∃ a, (runSteps ctx cur vault flag steps).current (ctx.tokens[j].metadata)
            = some a
        ∧ a - b = ((runSteps ctx cur vault flag steps).results.map
            (fun s => (s.deltas[j]?.map (fun d => d.delta)).getD 0)).sum := by
  intro steps
  induction steps with
  | nil =>
    intro cur vault flag b hb
    exact ⟨b, hb, by simp [runSteps]⟩
  | cons s rest ih =>
    intro cur vault flag b hb
    rcases hstep : dryRunStep ctx cur vault s with ⟨m, nv, r⟩
    have hrun : runSteps ctx cur vault flag (s :: rest) =
        { current := (runSteps ctx m nv (flag && r.success) rest).current
          vault := (runSteps ctx m nv (flag && r.success) rest).vault
          allSuccess := (runSteps ctx m nv (flag && r.success) rest).allSuccess
          results := r :: (runSteps ctx m nv (flag && r.success) rest).results } := by
      simp only [runSteps, hstep]
    have hm : m = jmerge cur (extractBalancesFromSimulation ctx.E
        (ctx.simulate s.payload).raw ctx.tokens ctx.owner) := by
      rw [show m = (dryRunStep ctx cur vault s).1 from by rw [hstep]]
      rfl
    have hrd : r.deltas = computeDeltas ctx.E cur m ctx.tokens := by
      rw [show r = (dryRunStep ctx cur vault s).2.2 from by rw [hstep], hm]
      rfl
    have hmsome : ∃ a₀, m (ctx.tokens[j].metadata) = some a₀ := by
      rw [hm]
      cases hA : extractBalancesFromSimulation ctx.E (ctx.simulate s.payload).raw
          ctx.tokens ctx.owner (ctx.tokens[j].metadata) with
      | none => exact ⟨b, by simp [jmerge, hA, hb]⟩
      | some v => exact ⟨v, by simp [jmerge, hA]⟩
    obtain ⟨a₀, ha₀⟩ := hmsome
    obtain ⟨fin, hfin, hsum⟩ := ih m nv (flag && r.success) a₀ ha₀
    refine ⟨fin, by rw [hrun]; exact hfin, ?_⟩
    rw [hrun]
    simp only [List.map_cons, List.sum_cons]
    have hdelta : (r.deltas[j]?.map (fun d => d.delta)).getD 0 = a₀ - b := by
      rw [hrd, computeDeltas_delta ctx.E cur m ctx.tokens j hj, hb, ha₀]
      rfl
    rw [hdelta, ← hsum]
    omega

/-- C5: for every dry run and every tracked-token index, the delta the
flow's `overallDiff` reports for that token equals the sum, in step order,
of the per-step deltas the step results report for it (the per-step deltas
telescope from the initial snapshot to the final carried-forward state). -/
theorem dryRun_overallDiff_telescopes :
    ∀ (E : Ext) (simulate : String → SimResultM) (initBal : String → Int)
      (fmtReport : FlowReportM → String) (plan : SimulationPlan) (j : Nat),
      j < plan.tokens.length →
      ∃ d : BalanceDelta,
        (dryRun E simulate initBal fmtReport plan).overallDiff.deltas[j]? = some d
        ∧ d.delta = ((dryRun E simulate initBal fmtReport plan).stepResults.map
            (fun s => (s.deltas[j]?.map (fun d => d.delta)).getD 0)).sum := by
  intro E simulate initBal fmtReport plan j hj
  have hmem : plan.tokens[j] ∈ plan.tokens := List.getElem_mem hj
  obtain ⟨b0, hb0⟩ := captureBalances_some initBal plan.tokens _ hmem
  obtain ⟨fin, hfin, hsum⟩ := runSteps_telescope
    ⟨E, simulate, plan.owner, plan.tokens, plan.vaultProtocol⟩ j hj plan.steps
    (captureBalances initBal plan.tokens) none true b0 hb0
  have hdeltas : (dryRun E simulate initBal fmtReport plan).overallDiff.deltas
      = computeDeltas E (captureBalances initBal plan.tokens)
          (runSteps ⟨E, simulate, plan.owner, plan.tokens, plan.vaultProtocol⟩
            (captureBalances initBal plan.tokens) none true plan.steps).current
          plan.tokens := rfl
  have hresults : (dryRun E simulate initBal fmtReport plan).stepResults
      = (runSteps ⟨E, simulate, plan.owner, plan.tokens, plan.vaultProtocol⟩
          (captureBalances initBal plan.tokens) none true plan.steps).results := rfl
  rw [hdeltas, hresults]
  have hsome := computeDeltas_getElem?_isSome E
    (captureBalances initBal plan.tokens)
    (runSteps ⟨E, simulate, plan.owner, plan.tokens, plan.vaultProtocol⟩
      (captureBalances initBal plan.tokens) none true plan.steps).current
    plan.tokens j hj
  obtain ⟨d, hd⟩ := Option.isSome_iff_exists.mp hsome
  refine ⟨d, hd, ?_⟩
  have := computeDeltas_delta E (captureBalances initBal plan.tokens)
    (runSteps ⟨E, simulate, plan.owner, plan.tokens, plan.vaultProtocol⟩
      (captureBalances initBal plan.tokens) none true plan.steps).current
    plan.tokens j hj
  rw [hd] at this
  simp only [Option.map_some', Option.getD_some] at this
  rw [this, hb0, hfin]
  simp only [Option.getD_some]
  omega

/-- C5 witness: in the concrete three-step scenario the overall delta for
token `a` (50 − 200 = −150) equals the sum of the three per-step deltas
(−150, 0, 0). -/
theorem dryRun_overallDiff_telescopes_witness :
    (0 < witPlan.tokens.length)
    ∧ (∃ d : BalanceDelta,
        (dryRun witExt witSimulate (fun _ => 200) (fun _ => "") witPlan).overallDiff.deltas[0]?
          = some d
        ∧ d.delta = ((dryRun witExt witSimulate (fun _ => 200) (fun _ => "") witPlan).stepResults.map
            (fun s => (s.deltas[0]?.map (fun d => d.delta)).getD 0)).sum) := by
  refine ⟨by decide, ?_⟩
  exact dryRun_overallDiff_telescopes witExt witSimulate (fun _ => 200) (fun _ => "")
    witPlan 0 (by decide)

/-! ### C6 lemmas: success aggregation -/

theorem runSteps_allSuccess (ctx : DryRunCtx) :
    ∀ (steps : List PlanStep) (cur : JMap Int) (vault : Option VaultSnapshot)
      (flag : Bool),
      (runSteps ctx cur vault flag steps).allSuccess
        = (flag && steps.all (fun st => (ctx.simulate st.payload).success)) := by
  intro steps
  induction steps with
  | nil => intro cur vault flag; simp [runSteps]
  | cons s rest ih =>
    intro cur vault flag
    rcases hstep : dryRunStep ctx cur vault s with ⟨m, nv, r⟩
    have hrs : r.success = (ctx.simulate s.payload).success := by
      rw [show r = (dryRunStep ctx cur vault s).2.2 from by rw [hstep]]
      rfl
    simp only [runSteps, hstep]
    rw [ih, hrs, List.all_cons, Bool.and_assoc]

theorem runSteps_results_success (ctx : DryRunCtx) :
    ∀ (steps : List PlanStep) (cur : JMap Int) (vault : Option VaultSnapshot)
      (flag : Bool) (n : Nat),
      ((runSteps ctx cur vault flag steps).results[n]?).map (fun s => s.success)
        = (steps[n]?).map (fun st => (ctx.simulate st.payload).success) := by
  intro steps
  induction steps with
  | nil => intro cur vault flag n; simp [runSteps]
  | cons s rest ih =>
    intro cur vault flag n
    rcases hstep : dryRunStep ctx cur vault s with ⟨m, nv, r⟩
    have hrs : r.success = (ctx.simulate s.payload).success := by
      rw [show r = (dryRunStep ctx cur vault s).2.2 from by rw [hstep]]
      rfl
    simp only [runSteps, hstep]
    cases n with
    | zero => simp [hrs]
    | succ k =>
      simp only [List.getElem?_cons_succ]
      exact ih _ _ _ k

theorem diagnose_stepLabel {vmStatus : String} {l : Option String}
    {e : DiagnosedError} (he : e ∈ diagnoseVmStatus vmStatus l) :
    e.stepLabel = l := by
  unfold diagnoseVmStatus at he
  by_cases hc : (vmStatus == "" || vmStatus == "Executed successfully") = true
  · rw [if_pos hc] at he
    exact absurd he (List.not_mem_nil e)
  · rw [if_neg hc] at he
    rcases hfind : ERROR_PATTERNS.find? (fun p => p.test vmStatus) with _ | p <;>
      simp only [hfind] at he <;>
      split at he <;>
      simp only [List.mem_append, List.mem_singleton, List.mem_cons,
        List.not_mem_nil, or_false] at he
    all_goals first
      | rfl
      | (rcases he with rfl | rfl <;> rfl)
      | (rcases he with rfl)
      | (rcases he with hf | rfl
         · exact hf.elim
         · rfl)

/-- C6: a dry run's overall `success` is true iff every step's simulation
reported success; each step result's `success` is exactly its simulation's
success (independent of expectations); every warning is a
severity-`warning` `EXPECTATION_FAILED` record; and every collected error
comes from a step whose simulation failed. -/
theorem dryRun_success_semantics :
    ∀ (E : Ext) (simulate : String → SimResultM) (initBal : String → Int)
      (fmtReport : FlowReportM → String) (plan : SimulationPlan),
      ((dryRun E simulate initBal fmtReport plan).success
        = plan.steps.all (fun st => (simulate st.payload).success))
      ∧ (∀ n : Nat,
          ((dryRun E simulate initBal fmtReport plan).stepResults[n]?).map
              (fun s => s.success)
            = (plan.steps[n]?).map (fun st => (simulate st.payload).success))
      ∧ (∀ w ∈ (dryRun E simulate initBal fmtReport plan).warnings,
          w.severity = .warning ∧ w.code = "EXPECTATION_FAILED")
      ∧ (∀ e ∈ (dryRun E simulate initBal fmtReport plan).errors,
          ∃ s ∈ (dryRun E simulate initBal fmtReport plan).stepResults,
            s.success = false ∧ e.stepLabel = some s.label) := by
  intro E simulate initBal fmtReport plan
  refine ⟨?_, ?_, ?_, ?_⟩
  · show (runSteps ⟨E, simulate, plan.owner, plan.tokens, plan.vaultProtocol⟩
        (captureBalances initBal plan.tokens) none true plan.steps).allSuccess = _
    rw [runSteps_allSuccess]
    simp
  · intro n
    exact runSteps_results_success
      ⟨E, simulate, plan.owner, plan.tokens, plan.vaultProtocol⟩ plan.steps
      (captureBalances initBal plan.tokens) none true n
  · intro w hw
    have hw' : w ∈ (runSteps ⟨E, simulate, plan.owner, plan.tokens, plan.vaultProtocol⟩
        (captureBalances initBal plan.tokens) none true plan.steps).results.flatMap
          (fun s => (s.expectationResults.filter (fun e => !e.passed)).map
            (expectationWarning s.label)) := hw
    rw [List.mem_flatMap] at hw'
    obtain ⟨s, _, hmem⟩ := hw'
    rw [List.mem_map] at hmem
    obtain ⟨e, _, rfl⟩ := hmem
    exact ⟨rfl, rfl⟩
  · intro e he
    have he' : e ∈ ((runSteps ⟨E, simulate, plan.owner, plan.tokens, plan.vaultProtocol⟩
        (captureBalances initBal plan.tokens) none true plan.steps).results.filter
          (fun s => !s.success)).flatMap
            (fun s => diagnoseVmStatus s.vmStatus (some s.label)) := he
    rw [List.mem_flatMap] at he'
    obtain ⟨s, hs, hmem⟩ := he'
    rw [List.mem_filter] at hs
    exact ⟨s, hs.1, by simpa using hs.2, diagnose_stepLabel hmem⟩

/-- C6 witness: `dryRun_success_semantics` applied to the concrete
three-step scenario: every simulated step succeeds, so the report's
`success` is true, and the first step result's `success` mirrors its
simulation's. -/
theorem dryRun_success_semantics_witness :
    (dryRun witExt witSimulate (fun _ => 200) (fun _ => "") witPlan).success = true
    ∧ ((dryRun witExt witSimulate (fun _ => 200) (fun _ => "") witPlan).stepResults[0]?).map
        (fun s => s.success) = some true := by
  have h := dryRun_success_semantics witExt witSimulate (fun _ => 200) (fun _ => "") witPlan
  constructor
  · rw [h.1]; decide
  · rw [h.2.1 0]; decide

/-! ### C3 lemmas: the unconsumed-resource analysis -/

theorem validateStep_some {abiLookup : AbiLookup} {dropOracle : DropOracle}
    {label : String} {cstep : ComposerStep} {v : StepValidation}
    (h : (validateStep abiLookup dropOracle label cstep).1 = some v) :
    v.label = label
    ∧ v.nonDroppableReturns = nonDroppableReturnsOf dropOracle v.returnTypes := by
  unfold validateStep at h
  split at h
  · exact absurd h (by simp)
  · split at h
    · exact absurd h (by simp)
    · simp only [Option.some.injEq] at h
      subst h
      exact ⟨rfl, rfl⟩

theorem validateStep_no_unconsumed_code {abiLookup : AbiLookup}
    {dropOracle : DropOracle} {label : String} {cstep : ComposerStep}
    {w : ValidationWarning}
    (hw : w ∈ (validateStep abiLookup dropOracle label cstep).2) :
    w.code ≠ "UNCONSUMED_RESOURCE" := by
  unfold validateStep at hw
  split at hw
  · exact absurd hw (List.not_mem_nil w)
  · split at hw
    · rcases List.mem_singleton.mp hw with rfl
      simp [functionNotFoundWarning]
    · simp only [List.mem_append] at hw
      rcases hw with ((hw | hw) | hw) | hw
      · split at hw
        · rcases List.mem_singleton.mp hw with rfl
          simp [typeArgWarning]
        · exact absurd hw (List.not_mem_nil w)
      · split at hw
        · rcases List.mem_singleton.mp hw with rfl
          simp [signerCountWarning]
        · exact absurd hw (List.not_mem_nil w)
      · split at hw
        · rcases List.mem_singleton.mp hw with rfl
          simp [argCountWarning]
        · exact absurd hw (List.not_mem_nil w)
      · unfold signerMismatchWarnings at hw
        rw [List.mem_flatMap] at hw
        obtain ⟨pr, _, hmem⟩ := hw
        dsimp only at hmem
        split at hmem
        · split at hmem
          · exact absurd hmem (List.not_mem_nil w)
          · rcases List.mem_singleton.mp hmem with rfl
            simp [signerPosMismatchWarning]
        · split at hmem
          · rcases List.mem_singleton.mp hmem with rfl
            simp [signerValueMismatchWarning]
          · exact absurd hmem (List.not_mem_nil w)

theorem validateSteps_vals_labels_sublist (abiLookup : AbiLookup)
    (dropOracle : DropOracle) :
    ∀ (steps : List (String × ComposerStep)),
      (((steps.map (fun p => validateStep abiLookup dropOracle p.1 p.2)).filterMap
          (fun r => r.1)).map (fun v => v.label)).Sublist (steps.map Prod.fst) := by
  intro steps
  induction steps with
  | nil => simp
  | cons p rest ih =>
    simp only [List.map_cons, List.filterMap_cons]
    cases hv : (validateStep abiLookup dropOracle p.1 p.2).1 with
    | none => exact ih.cons p.1
    | some v =>
      simp only [List.map_cons]
      rw [(validateStep_some hv).1]
      exact ih.cons₂ p.1

theorem vals_mem_shape {abiLookup : AbiLookup} {dropOracle : DropOracle}
    {steps : List (String × ComposerStep)} {v : StepValidation}
    (hv : v ∈ (steps.map (fun p => validateStep abiLookup dropOracle p.1 p.2)).filterMap
        (fun r => r.1)) :
    v.nonDroppableReturns = nonDroppableReturnsOf dropOracle v.returnTypes := by
  rw [List.mem_filterMap] at hv
  obtain ⟨r, hr, hr1⟩ := hv
  rw [List.mem_map] at hr
  obtain ⟨p, _, rfl⟩ := hr
  exact (validateStep_some hr1).2

theorem nonDroppableReturnsOf_nodup (dropOracle : DropOracle)
    (returnTypes : List String) :
    (nonDroppableReturnsOf dropOracle returnTypes).Nodup :=
  (List.nodup_range _).filter _

theorem length_filter_flatMap {α β : Type} (f : α → List β) (p : β → Bool) :
    ∀ l : List α,
      ((l.flatMap f).filter p).length
        = (l.map (fun x => ((f x).filter p).length)).sum := by
  intro l
  induction l with
  | nil => simp
  | cons x rest ih => simp [List.filter_append, ih]

theorem length_filter_flatMap_zero {α β : Type} {f : α → List β} {p : β → Bool}
    {l : List α} (h : ∀ x ∈ l, ((f x).filter p).length = 0) :
    ((l.flatMap f).filter p).length = 0 := by
  rw [length_filter_flatMap]
  induction l with
  | nil => simp
  | cons x rest ih =>
    simp only [List.map_cons, List.sum_cons]
    rw [h x (List.mem_cons_self x rest), ih (fun y hy => h y (List.mem_cons_of_mem x hy))]

theorem flatMap_filter_single {f : StepValidation → List ValidationWarning}
    {p : ValidationWarning → Bool} {v : StepValidation} :
    ∀ (vals : List StepValidation),
      (vals.map (fun v' => v'.label)).Nodup → v ∈ vals →
      (∀ v' ∈ vals, v'.label ≠ v.label → ((f v').filter p).length = 0) →
      ((vals.flatMap f).filter p).length = ((f v).filter p).length := by
  intro vals
  induction vals with
  | nil => intro _ hv; exact absurd hv (List.not_mem_nil v)
  | cons u rest ih =>
    intro hnodup hv hzero
    simp only [List.map_cons, List.nodup_cons] at hnodup
    simp only [List.flatMap_cons, List.filter_append, List.length_append]
    rcases List.mem_cons.mp hv with rfl | hvrest
    · have hrest : ∀ v' ∈ rest, ((f v').filter p).length = 0 := by
        intro v' hv'
        apply hzero v' (List.mem_cons_of_mem v hv')
        intro heq
        exact hnodup.1 (heq ▸ List.mem_map_of_mem (fun x => x.label) hv')
      rw [length_filter_flatMap_zero hrest]
      omega
    · have hu : u.label ≠ v.label := by
        intro heq
        exact hnodup.1 (heq ▸ List.mem_map_of_mem (fun x => x.label) hvrest)
      rw [hzero u (List.mem_cons_self u rest) hu,
        ih hnodup.2 hvrest
          (fun v' hv' h' => hzero v' (List.mem_cons_of_mem u hv') h')]
      omega

theorem unconsumedWarningsFor_count_zero {consumed : List String}
    {v : StepValidation} {i : Nat} :
    ∀ (l : List Nat), i ∉ l →
      ((l.filterMap (fun idx =>
          if consumed.contains (refKey v.label idx) then none
          else some (unconsumedWarning v.label idx (v.returnTypes.getD idx "undefined")))).filter
        (fun w => w == unconsumedWarning v.label i (v.returnTypes.getD i "undefined"))).length
      = 0 := by
  intro l
  induction l with
  | nil => intro _; simp
  | cons j rest ih =>
    intro hnotin
    have hji : j ≠ i := fun h => hnotin (h ▸ List.mem_cons_self j rest)
    have hirest : i ∉ rest := fun h => hnotin (List.mem_cons_of_mem j h)
    rw [List.filterMap_cons]
    by_cases hcon : consumed.contains (refKey v.label j) = true
    · rw [if_pos hcon]
      exact ih hirest
    · rw [if_neg hcon]
      rw [List.filter_cons, if_neg ?_]
      · exact ih hirest
      · simp only [beq_iff_eq]
        intro heq
        exact hji (unconsumedWarning_index_inj heq)

theorem unconsumedWarningsFor_count_aux {consumed : List String}
    {v : StepValidation} {i : Nat} :
    ∀ (l : List Nat), l.Nodup → i ∈ l →
      ((l.filterMap (fun idx =>
          if consumed.contains (refKey v.label idx) then none
          else some (unconsumedWarning v.label idx (v.returnTypes.getD idx "undefined")))).filter
        (fun w => w == unconsumedWarning v.label i (v.returnTypes.getD i "undefined"))).length
      = if consumed.contains (refKey v.label i) then 0 else 1 := by
  intro l
  induction l with
  | nil => intro _ hi; exact absurd hi (List.not_mem_nil i)
  | cons j rest ih =>
    intro hnd hi
    rw [List.nodup_cons] at hnd
    rw [List.filterMap_cons]
    rcases List.mem_cons.mp hi with rfl | hirest
    · by_cases hcon : consumed.contains (refKey v.label i) = true
      · rw [if_pos hcon]
        rw [unconsumedWarningsFor_count_zero rest hnd.1, if_pos hcon]
      · rw [if_neg hcon]
        rw [List.filter_cons, if_pos (by simp)]
        rw [List.length_cons, unconsumedWarningsFor_count_zero rest hnd.1,
          if_neg hcon]
    · have hji : j ≠ i := fun h => hnd.1 (h ▸ hirest)
      by_cases hcon : consumed.contains (refKey v.label j) = true
      · rw [if_pos hcon]
        exact ih hnd.2 hirest
      · rw [if_neg hcon]
        rw [List.filter_cons, if_neg ?_]
        · exact ih hnd.2 hirest
        · simp only [beq_iff_eq]
          intro heq
          exact hji (unconsumedWarning_index_inj heq)

theorem unconsumedWarningsFor_count {consumed : List String}
    {v : StepValidation} {i : Nat}
    (hnd : v.nonDroppableReturns.Nodup) (hi : i ∈ v.nonDroppableReturns) :
    ((unconsumedWarningsFor consumed v).filter
        (fun w => w == unconsumedWarning v.label i (v.returnTypes.getD i "undefined"))).length
      = if consumed.contains (refKey v.label i) then 0 else 1 :=
  unconsumedWarningsFor_count_aux v.nonDroppableReturns hnd hi

theorem unconsumedWarningsFor_stepLabel {consumed : List String}
    {v' : StepValidation} {w : ValidationWarning}
    (hw : w ∈ unconsumedWarningsFor consumed v') : w.stepLabel = v'.label := by
  unfold unconsumedWarningsFor at hw
  rw [List.mem_filterMap] at hw
  obtain ⟨idx, _, hidx⟩ := hw
  split at hidx
  · exact absurd hidx (by simp)
  · simp only [Option.some.injEq] at hidx
    rw [← hidx]
    rfl

theorem validateSteps_ok_parts {abiLookup : AbiLookup} {dropOracle : DropOracle}
    {steps : List (String × ComposerStep)}
    {vals : List StepValidation} {warns : List ValidationWarning}
    (hok : validateSteps abiLookup dropOracle steps = .ok (vals, warns)) :
    vals = (steps.map (fun p => validateStep abiLookup dropOracle p.1 p.2)).filterMap
        (fun r => r.1)
    ∧ warns = (steps.map (fun p => validateStep abiLookup dropOracle p.1 p.2)).flatMap
          (fun r => r.2)
        ++ ((steps.map (fun p => validateStep abiLookup dropOracle p.1 p.2)).filterMap
            (fun r => r.1)).flatMap
              (unconsumedWarningsFor (consumedRefsOf steps)) := by
  unfold validateSteps at hok
  split at hok
  · exact absurd hok (by simp)
  · simp only [Except.ok.injEq, Prod.mk.injEq] at hok
    exact ⟨hok.1.symm, hok.2.symm⟩

theorem consumedRefs_contains_iff (steps : List (String × ComposerStep))
    (l : String) (i : Nat) :
    ((consumedRefsOf steps).contains (refKey l i) = true)
      ↔ ∃ p ∈ steps, ∃ a ∈ p.2.args, ∃ m : RefMode, a = .ref l i m := by
  unfold consumedRefsOf
  rw [List.contains_iff_exists_mem_beq]
  constructor
  · rintro ⟨x, hx, hbeq⟩
    rw [beq_iff_eq] at hbeq
    rw [List.mem_flatMap] at hx
    obtain ⟨p, hp, hxp⟩ := hx
    rw [List.mem_filterMap] at hxp
    obtain ⟨a, ha, hkey⟩ := hxp
    cases a with
    | signer => exact absurd hkey (by simp)
    | literal v => exact absurd hkey (by simp)
    | ref s j m =>
      simp only [Option.some.injEq] at hkey
      have := refKey_inj (hkey.trans hbeq.symm)
      exact ⟨p, hp, .ref s j m, ha, m, by rw [this.1, this.2]⟩
  · rintro ⟨p, hp, a, ha, m, rfl⟩
    refine ⟨refKey l i, ?_, by simp⟩
    rw [List.mem_flatMap]
    refine ⟨p, hp, ?_⟩
    rw [List.mem_filterMap]
    exact ⟨.ref l i m, ha, rfl⟩

/-- C3: in a step graph with distinct labels that validates without a parse
failure, a validation's non-droppable return at index `i` that is not
targeted by any `Ref` argument anywhere in the graph yields exactly one
`UNCONSUMED_RESOURCE` finding naming that step's label and index `i`, while
the existence of at least one `Ref` targeting `(label, i)` suppresses the
finding entirely. -/
theorem validateSteps_unconsumed_exactly_once :
    ∀ (abiLookup : AbiLookup) (dropOracle : DropOracle)
      (steps : List (String × ComposerStep))
      (vals : List StepValidation) (warns : List ValidationWarning)
      (v : StepValidation) (i : Nat),
      validateSteps abiLookup dropOracle steps = .ok (vals, warns) →
      (steps.map Prod.fst).Nodup →
      v ∈ vals →
      i ∈ v.nonDroppableReturns →
      (warns.filter (fun w =>
          w == unconsumedWarning v.label i (v.returnTypes.getD i "undefined"))).length
        = if steps.any (fun p => p.2.args.any (fun a =>
              match a with
              | .ref s j _ => s == v.label && j == i
              | _ => false)) then 0 else 1 := by
  intro abiLookup dropOracle steps vals warns v i hok hnodup hv hi
  obtain ⟨hvals, hwarns⟩ := validateSteps_ok_parts hok
  subst hvals
  subst hwarns
  rw [List.filter_append, List.length_append]
  have h1 : (((steps.map (fun p => validateStep abiLookup dropOracle p.1 p.2)).flatMap
      (fun r => r.2)).filter (fun w =>
        w == unconsumedWarning v.label i (v.returnTypes.getD i "undefined"))).length = 0 := by
    rw [List.length_eq_zero, List.filter_eq_nil_iff]
    intro w hw
    rw [List.mem_flatMap] at hw
    obtain ⟨r, hr, hwr⟩ := hw
    rw [List.mem_map] at hr
    obtain ⟨p, _, rfl⟩ := hr
    simp only [beq_iff_eq]
    intro heq
    exact validateStep_no_unconsumed_code hwr (by rw [heq]; rfl)
  rw [h1]
  have hlabels : (((steps.map (fun p => validateStep abiLookup dropOracle p.1 p.2)).filterMap
      (fun r => r.1)).map (fun v' => v'.label)).Nodup :=
    (validateSteps_vals_labels_sublist abiLookup dropOracle steps).nodup hnodup
  have h2 := flatMap_filter_single
    (f := unconsumedWarningsFor (consumedRefsOf steps))
    (p := fun w => w == unconsumedWarning v.label i (v.returnTypes.getD i "undefined"))
    (v := v)
    ((steps.map (fun p => validateStep abiLookup dropOracle p.1 p.2)).filterMap (fun r => r.1))
    hlabels hv ?_
  · rw [h2, unconsumedWarningsFor_count
      (by rw [vals_mem_shape hv]; exact nonDroppableReturnsOf_nodup dropOracle v.returnTypes)
      hi]
    have hcontains : (consumedRefsOf steps).contains (refKey v.label i)
        = steps.any (fun p => p.2.args.any (fun a =>
            match a with
            | .ref s j _ => s == v.label && j == i
            | _ => false)) := by
      rw [← Bool.coe_iff_coe]
      rw [consumedRefs_contains_iff steps v.label i, List.any_eq_true]
      constructor
      · rintro ⟨p, hp, a, ha, m, rfl⟩
        refine ⟨p, hp, ?_⟩
        rw [List.any_eq_true]
        exact ⟨.ref v.label i m, ha, by simp⟩
      · rintro ⟨p, hp, hany⟩
        rw [List.any_eq_true] at hany
        obtain ⟨a, ha, hmatch⟩ := hany
        cases a with
        | signer => exact absurd hmatch (by simp)
        | literal vv => exact absurd hmatch (by simp)
        | ref s j m =>
          simp only [Bool.and_eq_true, beq_iff_eq] at hmatch
          exact ⟨p, hp, .ref s j m, ha, m, by rw [hmatch.1, hmatch.2]⟩
    rw [hcontains]
    omega
  · intro v' hv' hne
    rw [List.length_eq_zero, List.filter_eq_nil_iff]
    intro w hw
    simp only [beq_iff_eq]
    intro heq
    apply hne
    rw [← unconsumedWarningsFor_stepLabel hw, heq]
    rfl

/-- C3 witness: a one-step graph whose step `"w"` returns one non-droppable
`0x1::m::Coin` that no `Ref` consumes: validation emits exactly one
`UNCONSUMED_RESOURCE` finding for `("w", 0)`. -/
theorem validateSteps_unconsumed_exactly_once_witness :
    validateSteps
        (fun _ _ _ => some { params := [], ret := ["0x1::m::Coin"], genericTypeParamCount := 0 })
        (fun _ _ _ => some false)
        [("w", { function := "0x1::m::w", typeArguments := none, args := [] })]
      = .ok ([{ label := "w", function := "0x1::m::w", signerCount := 0, params := [],
                returnTypes := ["0x1::m::Coin"], nonDroppableReturns := [0] }],
             [unconsumedWarning "w" 0 "0x1::m::Coin"])
    ∧ (([unconsumedWarning "w" 0 "0x1::m::Coin"].filter (fun w =>
          w == unconsumedWarning "w" 0 "0x1::m::Coin")).length
        = if ([("w", ({ function := "0x1::m::w", typeArguments := none, args := [] } : ComposerStep))]).any
              (fun p => p.2.args.any (fun a =>
                match a with
                | .ref s j _ => s == "w" && j == 0
                | _ => false)) then 0 else 1) := by
  refine ⟨by rfl, ?_⟩
  exact validateSteps_unconsumed_exactly_once
    (fun _ _ _ => some { params := [], ret := ["0x1::m::Coin"], genericTypeParamCount := 0 })
    (fun _ _ _ => some false)
    [("w", { function := "0x1::m::w", typeArguments := none, args := [] })]
    [{ label := "w", function := "0x1::m::w", signerCount := 0, params := [],
       returnTypes := ["0x1::m::Coin"], nonDroppableReturns := [0] }]
    [unconsumedWarning "w" 0 "0x1::m::Coin"]
    { label := "w", function := "0x1::m::w", signerCount := 0, params := [],
      returnTypes := ["0x1::m::Coin"], nonDroppableReturns := [0] }
    0 (by rfl) (by decide) (by decide) (by decide)

end TxComposer















